import Mathlib

/-!
Verification of the invoice/purchase-order reconciliation service
(webhook ingestion, flexible JSON parsing, purchase-order normalization,
and the per-record validation state machine).

Strings are modelled as lists of characters (`Str`).  Python semantics
that the source relies on (truthiness, `str.strip`, `str.upper`,
`str.replace`, substring tests, `float(...)` coercion, `json.loads`,
`ast.literal_eval`) are embedded as executable Lean functions.
-/

abbrev Str := List Char

/-- JSON whitespace as accepted by `json.loads` (space, tab, newline, CR). -/
def isJsonWs (c : Char) : Bool :=
  c = ' ' || c = '\t' || c = '\n' || c = '\r'

/-- Whitespace as stripped by Python `str.strip()`.  Python strips all
Unicode whitespace; this model covers the ASCII/Latin-1 whitespace
characters (a superset of JSON whitespace, which is all that the proofs
rely on: the boundary characters of a valid JSON text are JSON
whitespace). -/
def isPyWs (c : Char) : Bool :=
  isJsonWs c || c = '\x0b' || c = '\x0c' ||
  (0x1c ≤ c.toNat && c.toNat ≤ 0x1f) || c = '\x85' || c = '\xa0'

/-- Python `str.strip()`: drop leading and trailing whitespace. -/
def pyStrip (s : Str) : Str :=
  ((s.dropWhile isPyWs).reverse.dropWhile isPyWs).reverse

/-- ASCII-only model of Python `str.upper()` (the substring tokens the
code searches for are ASCII, so non-ASCII case mapping is irrelevant). -/
def asciiUpper (c : Char) : Char :=
  if 'a' ≤ c ∧ c ≤ 'z' then Char.ofNat (c.toNat - 32) else c

def pyUpper (s : Str) : Str := s.map asciiUpper

/-- Python `needle in hay` substring test. -/
def containsSub (hay needle : Str) : Bool :=
  match hay with
  | [] => needle.isEmpty
  | _ :: t => needle.isPrefixOf hay || containsSub t needle

/-- Python truthiness of a string (empty is falsy). -/
def strTruthy (s : Str) : Bool := !s.isEmpty

/-- First truthy value in a Python `a or b or c` chain over optional
strings; `none` when all are falsy. -/
def pyOrStr : List (Option Str) → Option Str
  | [] => none
  | o :: rest =>
    match o with
    | some s => if strTruthy s then some s else pyOrStr rest
    | none => pyOrStr rest

/-- Python `str.replace(pat, rep)` (leftmost, non-overlapping), with a
fuel argument to keep the recursion structural; fuel `s.length + 1`
always suffices since each step consumes at least one character. -/
def strReplaceF (pat rep : Str) : Nat → Str → Str
  | 0, s => s
  | _ + 1, [] => []
  | f + 1, c :: t =>
    if pat ≠ [] ∧ pat.isPrefixOf (c :: t) then
      rep ++ strReplaceF pat rep f ((c :: t).drop pat.length)
    else
      c :: strReplaceF pat rep f t

def strReplace (pat rep s : Str) : Str := strReplaceF pat rep (s.length + 1) s

-- ======================================================================
-- JSON values and the strict parser (model of Python `json.loads`)
-- ======================================================================

/-- A parsed JSON value.  Numbers are modelled exactly as rationals
(Python distinguishes int/float and uses binary floats; that
idealization does not affect any claim). -/
inductive JVal where
  | null
  | bool (b : Bool)
  | num (q : ℚ)
  | str (s : Str)
  | arr (elems : List JVal)
  | obj (members : List (Str × JVal))

/-- Python truthiness of a parsed JSON value (`None`, `False`, `0`,
empty string/list/dict are falsy). -/
def jvalTruthy : JVal → Bool
  | .null => false
  | .bool b => b
  | .num q => q ≠ 0
  | .str s => !s.isEmpty
  | .arr l => !l.isEmpty
  | .obj l => !l.isEmpty

/-- Skip JSON whitespace. -/
def skipWs (s : Str) : Str := s.dropWhile isJsonWs

/-- Python `dict` insertion: replacing an existing key keeps its
position, a new key goes to the end. -/
def dictInsert (ms : List (Str × JVal)) (k : Str) (v : JVal) :
    List (Str × JVal) :=
  if ms.any (fun p => p.1 = k) then
    ms.map (fun p => if p.1 = k then (k, v) else p)
  else ms ++ [(k, v)]

def hexVal (c : Char) : Option Nat :=
  if '0' ≤ c ∧ c ≤ '9' then some (c.toNat - '0'.toNat)
  else if 'a' ≤ c ∧ c ≤ 'f' then some (c.toNat - 'a'.toNat + 10)
  else if 'A' ≤ c ∧ c ≤ 'F' then some (c.toNat - 'A'.toNat + 10)
  else none

/-- Four hex digits of a `\uXXXX` escape. -/
def parseHex4 : Str → Option (Nat × Str)
  | a :: b :: c :: d :: r =>
    match hexVal a, hexVal b, hexVal c, hexVal d with
    | some x, some y, some z, some w => some (((x * 16 + y) * 16 + z) * 16 + w, r)
    | _, _, _, _ => none
  | _ => none

def simpleEscape (c : Char) : Option Char :=
  if c = '"' then some '"'
  else if c = '\\' then some '\\'
  else if c = '/' then some '/'
  else if c = 'b' then some '\x08'
  else if c = 'f' then some '\x0c'
  else if c = 'n' then some '\n'
  else if c = 'r' then some '\r'
  else if c = 't' then some '\t'
  else none

def digitsToNat (ds : Str) : Nat :=
  ds.foldl (fun a c => a * 10 + (c.toNat - '0'.toNat)) 0

/-- Optional leading minus sign. -/
def negSplit : Str → Bool × Str
  | [] => (false, [])
  | c :: t => if c = '-' then (true, t) else (false, c :: t)

/-- Optional leading minus or plus sign. -/
def signSplit : Str → Bool × Str
  | [] => (false, [])
  | c :: t =>
    if c = '-' then (true, t)
    else if c = '+' then (false, t)
    else (false, c :: t)

/-- Integer part of a JSON number: `0`, or a nonzero digit followed by
digits (leading zeros are rejected, as in strict JSON). -/
def parseIntDigits : Str → Option (Str × Str)
  | [] => none
  | c :: t =>
    if c = '0' then some (['0'], t)
    else if c.isDigit then
      some (c :: t.takeWhile Char.isDigit, t.dropWhile Char.isDigit)
    else none

/-- Optional fraction part `.digits`. -/
def parseFracDigits : Str → Option (Str × Str)
  | [] => some ([], [])
  | c :: t =>
    if c = '.' then
      if (t.takeWhile Char.isDigit).isEmpty then none
      else some (t.takeWhile Char.isDigit, t.dropWhile Char.isDigit)
    else some ([], c :: t)

/-- Optional exponent part `[eE][+-]?digits`; returns the signed exponent. -/
def parseExpDigits : Str → Option (Int × Str)
  | c :: t =>
    if c = 'e' ∨ c = 'E' then
      let p := signSplit t
      let ds := p.2.takeWhile Char.isDigit
      if ds.isEmpty then none
      else some (if p.1 then -(digitsToNat ds : Int) else (digitsToNat ds : Int),
                 p.2.dropWhile Char.isDigit)
    else some (0, c :: t)
  | [] => some (0, [])

/-- `10 ^ n` as a rational (kept as a `Nat` power so that everything
reduces by computation). -/
def pow10 (n : Nat) : ℚ := ((10 ^ n : Nat) : ℚ)

/-- Scale by a signed power of ten. -/
def porExp10 (q : ℚ) : Int → ℚ
  | .ofNat n => q * pow10 n
  | .negSucc n => q / pow10 (n + 1)

/-- A JSON number (strict grammar), returned as an exact rational. -/
def parseNumber (l : Str) : Option (ℚ × Str) :=
  let neg := (negSplit l).1
  let l1 := (negSplit l).2
  match parseIntDigits l1 with
  | none => none
  | some (ip, l2) =>
    match parseFracDigits l2 with
    | none => none
    | some (fp, l3) =>
      match parseExpDigits l3 with
      | none => none
      | some (e, l4) =>
        let base : ℚ := (digitsToNat ip : ℚ) + (digitsToNat fp : ℚ) / pow10 fp.length
        some (porExp10 (if neg then -base else base) e, l4)

/-- What follows a high-surrogate `\uXXXX` escape: a valid
low-surrogate escape to join with, a hard error (a `\u` with invalid
hex digits raises, as in CPython), or nothing to join (continue after
the first escape). -/
inductive SurrLook where
  | join (n2 : Nat) (rest : Str)
  | bad
  | lone

def surrLook : Str → SurrLook
  | a :: b :: t4 =>
    if a = '\\' ∧ b = 'u' then
      match parseHex4 t4 with
      | none => .bad
      | some (n2, t5) =>
        if 0xDC00 ≤ n2 ∧ n2 ≤ 0xDFFF then .join n2 t5 else .lone
    else .lone
  | _ => .lone

mutual

/-- One JSON value, starting at a non-whitespace character; returns the
value and the unconsumed rest.  Mirrors Python's scanner: leading
whitespace is skipped by the caller, trailing whitespace is left in the
rest. -/
def parseJValue : Nat → Str → Option (JVal × Str)
  | 0, _ => none
  | _ + 1, [] => none
  | f + 1, c :: t =>
    if c = '"' then
      match parseJStringBody f t with
      | some (s, r) => some (.str s, r)
      | none => none
    else if c = '[' then
      match skipWs t with
      | [] => none
      | c2 :: t2 =>
        if c2 = ']' then some (.arr [], t2)
        else
          match parseJElems f (c2 :: t2) with
          | some (vs, r) => some (.arr vs, r)
          | none => none
    else if c = '{' then
      match skipWs t with
      | [] => none
      | c2 :: t2 =>
        if c2 = '}' then some (.obj [], t2)
        else
          match parseJMembers f [] (c2 :: t2) with
          | some (ms, r) => some (.obj ms, r)
          | none => none
    else if c = 't' then
      if (("rue").toList).isPrefixOf t then some (.bool true, t.drop 3) else none
    else if c = 'f' then
      if (("alse").toList).isPrefixOf t then some (.bool false, t.drop 4) else none
    else if c = 'n' then
      if (("ull").toList).isPrefixOf t then some (.null, t.drop 3) else none
    else
      match parseNumber (c :: t) with
      | some (q, r) => some (.num q, r)
      | none => none

/-- Array elements after `[` (at least one; the empty array is handled
by `parseJValue`).  Input is pre-skipped; consumes the closing `]`. -/
def parseJElems : Nat → Str → Option (List JVal × Str)
  | 0, _ => none
  | f + 1, l =>
    match parseJValue f l with
    | none => none
    | some (v, r) =>
      match skipWs r with
      | [] => none
      | c2 :: r2 =>
        if c2 = ',' then
          match parseJElems f (skipWs r2) with
          | some (vs, r3) => some (v :: vs, r3)
          | none => none
        else if c2 = ']' then some ([v], r2)
        else none

/-- Object members after `{` (at least one; the empty object is handled
by `parseJValue`).  Input is pre-skipped; consumes the closing `}`.
Duplicate keys collapse as in a Python dict (last value wins). -/
def parseJMembers : Nat → List (Str × JVal) → Str → Option (List (Str × JVal) × Str)
  | 0, _, _ => none
  | _ + 1, _, [] => none
  | f + 1, acc, c :: t =>
    if c = '"' then
      match parseJStringBody f t with
      | none => none
      | some (k, r) =>
        match skipWs r with
        | [] => none
        | c2 :: r2 =>
          if c2 = ':' then
            match parseJValue f (skipWs r2) with
            | none => none
            | some (v, r3) =>
              match skipWs r3 with
              | [] => none
              | c3 :: r4 =>
                if c3 = ',' then parseJMembers f (dictInsert acc k v) (skipWs r4)
                else if c3 = '}' then some (dictInsert acc k v, r4)
                else none
          else none
    else none

/-- The body of a JSON string, after the opening quote; consumes the
closing quote.  Strict mode: raw control characters below 0x20 are
rejected.  Surrogate-pair `\u` escapes are joined as CPython does; a
lone surrogate produces `Char.ofNat` of its value (Python keeps the raw
surrogate, which `Char` cannot represent — no claim depends on it). -/
def parseJStringBody : Nat → Str → Option (Str × Str)
  | 0, _ => none
  | _ + 1, [] => none
  | f + 1, c :: t =>
    if c = '"' then some ([], t)
    else if c = '\\' then
      match t with
      | [] => none
      | e :: t2 =>
        if e = 'u' then
          match parseHex4 t2 with
          | none => none
          | some (n, t3) =>
            if 0xD800 ≤ n ∧ n ≤ 0xDBFF then
              match surrLook t3 with
              | .bad => none
              | .join n2 t5 =>
                match parseJStringBody f t5 with
                | some (s, r) =>
                  some (Char.ofNat (0x10000 + (n - 0xD800) * 0x400 + (n2 - 0xDC00)) :: s, r)
                | none => none
              | .lone =>
                match parseJStringBody f t3 with
                | some (s, r) => some (Char.ofNat n :: s, r)
                | none => none
            else
              match parseJStringBody f t3 with
              | some (s, r) => some (Char.ofNat n :: s, r)
              | none => none
        else
          match simpleEscape e with
          | some ch =>
            match parseJStringBody f t2 with
            | some (s, r) => some (ch :: s, r)
            | none => none
          | none => none
    else if c.toNat < 0x20 then none
    else
      match parseJStringBody f t with
      | some (s, r) => some (c :: s, r)
      | none => none

end

/-- Model of Python `json.loads`: skip leading whitespace, read one
value, require only whitespace afterwards.  The fuel `2·n + 4` is
always sufficient (each recursive call is paid for by consumed input).
CPython additionally accepts `NaN`/`Infinity`/`-Infinity` by default;
`JVal` has no such values and they are not modelled — failure here
stands for them, and no claim's statement turns on inputs containing
them (the refinement claim is conditioned on this very parser, and the
endpoint claim quantifies over the purchase-order computation). -/
def jsonLoads (s : Str) : Option JVal :=
  let t := skipWs s
  match parseJValue (2 * t.length + 4) t with
  | some (v, r) => if skipWs r = [] then some v else none
  | none => none

-- ======================================================================
-- utils/helpers.py : fix_malformed_json and parse_flexible_json
-- ======================================================================

def isWordChar (c : Char) : Bool := c.isAlpha || c.isDigit || c = '_'

def isWordStart (c : Char) : Bool := c.isAlpha || c = '_'

/-- ASCII content of the regex class `\s` (the Unicode extras are
irrelevant to the repaired payloads). -/
def isReWs (c : Char) : Bool :=
  c = ' ' || c = '\t' || c = '\n' || c = '\r' || c = '\x0b' || c = '\x0c'

/-- Whether the lookbehind of the key-quoting regex succeeds: the
character before the match is absent, and is neither a quote
(`(?<!")`) nor a word character (the leading `\b`). -/
def repairLookbehind : Option Char → Bool
  | none => true
  | some p => p ≠ '"' && !isWordChar p

/-- Model of `re.sub(r'(?<!")(\b[a-zA-Z_][a-zA-Z0-9_]*\b)(?!")\s*:', r'"\1":', s)`:
scan left to right; at a match, wrap the bare identifier in double
quotes, drop the whitespace before the colon, and continue after the
colon.  Fuel `length + 1` suffices (every step consumes a character). -/
def quoteRepairF : Nat → Option Char → Str → Str
  | 0, _, s => s
  | _ + 1, _, [] => []
  | f + 1, prev, c :: t =>
    if repairLookbehind prev ∧ isWordStart c then
      let word := c :: t.takeWhile isWordChar
      let rest1 := t.dropWhile isWordChar
      let rest2 := rest1.dropWhile isReWs
      if (match rest1 with | '"' :: _ => false | _ => true) then
        match rest2 with
        | ':' :: r3 => '"' :: word ++ '"' :: ':' :: quoteRepairF f (some ':') r3
        | _ => c :: quoteRepairF f (some c) t
      else c :: quoteRepairF f (some c) t
    else c :: quoteRepairF f (some c) t

def quoteRepair (s : Str) : Str := quoteRepairF (s.length + 1) none s

/-- `fix_malformed_json`: return valid JSON unchanged; otherwise quote
bare keys and turn single quotes into double quotes. -/
def fixMalformedJson (s : Str) : Str :=
  if (jsonLoads s).isSome then s
  else (quoteRepair s).map (fun c => if c = '\'' then '"' else c)

-- Model of `ast.literal_eval` restricted to literal containers, which
-- is how `parse_flexible_json` uses it (after textual substitution of
-- true/false/null by True/False/None).  Python-specific literals not
-- reachable from the repaired payloads (hex/octal/binary ints,
-- underscores in numbers, leading-dot floats, sets, bytes, adjacent
-- string concatenation) are not modelled.

/-- Body of a Python string literal with delimiter `q`; an unknown
escape keeps the backslash (Python's behavior for e.g. `\q`). -/
def plStringBody (q : Char) : Nat → Str → Option (Str × Str)
  | 0, _ => none
  | _ + 1, [] => none
  | f + 1, c :: t =>
    if c = q then some ([], t)
    else if c = '\\' then
      match t with
      | [] => none
      | e :: t2 =>
        let step (ch : Char) (rest : Str) : Option (Str × Str) :=
          match plStringBody q f rest with
          | some (s, r) => some (ch :: s, r)
          | none => none
        if e = 'n' then step '\n' t2
        else if e = 't' then step '\t' t2
        else if e = 'r' then step '\r' t2
        else if e = '\\' then step '\\' t2
        else if e = '\'' then step '\'' t2
        else if e = '"' then step '"' t2
        else if e = '0' then step '\x00' t2
        else
          match plStringBody q f t2 with
          | some (s, r) => some ('\\' :: e :: s, r)
          | none => none
    else
      match plStringBody q f t with
      | some (s, r) => some (c :: s, r)
      | none => none

mutual

/-- One Python literal value (input pre-skipped of whitespace).  Only
the forms the repository's payloads use are modelled: quoted strings,
plain decimal numbers, lists, tuples, dicts, and the substituted
`true`/`false`/`null` names.  CPython's `ast.literal_eval` accepts
further forms (underscored, hex, octal or binary integers, leading-dot
floats, set literals, complex numbers); failure here stands for those,
and no claim's statement depends on this fallback's exact coverage
(the endpoint claim quantifies over the purchase-order computation). -/
def plValue : Nat → Str → Option (JVal × Str)
  | 0, _ => none
  | f + 1, l =>
    match l with
    | [] => none
    | c :: t =>
      if c = '\'' ∨ c = '"' then
        match plStringBody c f t with
        | some (s, r) => some (.str s, r)
        | none => none
      else if c = '[' then
        match skipWs t with
        | ']' :: r => some (.arr [], r)
        | t2 =>
          match plElems ']' f t2 with
          | some (vs, r) => some (.arr vs, r)
          | none => none
      else if c = '(' then
        match skipWs t with
        | ')' :: r => some (.arr [], r)
        | t2 =>
          match plElems ')' f t2 with
          | some (vs, r) => some (.arr vs, r)
          | none => none
      else if c = '{' then
        match skipWs t with
        | '}' :: r => some (.obj [], r)
        | t2 =>
          match plMembers f [] t2 with
          | some (ms, r) => some (.obj ms, r)
          | none => none
      else if c = 'T' then
        if (("rue").toList).isPrefixOf t then some (.bool true, t.drop 3) else none
      else if c = 'F' then
        if (("alse").toList).isPrefixOf t then some (.bool false, t.drop 4) else none
      else if c = 'N' then
        if (("one").toList).isPrefixOf t then some (.null, t.drop 3) else none
      else if c = '+' then
        match parseNumber t with
        | some (q, r) => some (.num q, r)
        | none => none
      else
        match parseNumber l with
        | some (q, r) => some (.num q, r)
        | none => none

/-- Elements of a Python list or tuple (closing delimiter `cl`);
trailing commas are allowed, as in Python. -/
def plElems (cl : Char) : Nat → Str → Option (List JVal × Str)
  | 0, _ => none
  | f + 1, l =>
    match plValue f l with
    | none => none
    | some (v, r) =>
      match skipWs r with
      | ',' :: r2 =>
        match skipWs r2 with
        | c :: r3 =>
          if c = cl then some ([v], r3)
          else
            match plElems cl f (c :: r3) with
            | some (vs, r4) => some (v :: vs, r4)
            | none => none
        | [] => none
      | c :: r2 =>
        if c = cl then some ([v], r2) else none
      | [] => none

/-- Members of a Python dict literal; trailing commas allowed.  Keys
are required to be string literals; CPython accepts any literal key
(e.g. an integer), which `JVal.obj` cannot carry — failure here stands
for such dicts, and no claim's statement depends on this fallback's
exact coverage (the endpoint claim quantifies over the purchase-order
computation). -/
def plMembers : Nat → List (Str × JVal) → Str → Option (List (Str × JVal) × Str)
  | 0, _, _ => none
  | f + 1, acc, l =>
    match plValue f l with
    | some (.str k, r) =>
      match skipWs r with
      | ':' :: r2 =>
        match plValue f (skipWs r2) with
        | some (v, r3) =>
          match skipWs r3 with
          | ',' :: r4 =>
            match skipWs r4 with
            | '}' :: r5 => some (dictInsert acc k v, r5)
            | t5 => plMembers f (dictInsert acc k v) t5
          | '}' :: r4 => some (dictInsert acc k v, r4)
          | _ => none
        | none => none
      | _ => none
    | _ => none

end

/-- Model of `ast.literal_eval` on the (literal-only) expressions the
fallback produces. -/
def pyLiteral (s : Str) : Option JVal :=
  let t := skipWs s
  match plValue (2 * t.length + 4) t with
  | some (v, r) => if skipWs r = [] then some v else none
  | none => none

/-- `true`/`false`/`null` textually replaced by their Python spellings
(everywhere in the text, including inside strings — as the source does). -/
def replacePyLiterals (s : Str) : Str :=
  strReplace (("null").toList) (("None").toList)
    (strReplace (("false").toList) (("False").toList)
      (strReplace (("true").toList) (("True").toList) s))

/-- `parse_flexible_json`: strip, try strict JSON, then the key-quoting
repair, then the permissive literal evaluation; error only when all
three fail.  (The Python error message interpolates the JSON error;
the model uses the fixed prefix.) -/
def parseFlexibleJson (s : Str) : Except Str JVal :=
  let t := pyStrip s
  match jsonLoads t with
  | some v => .ok v
  | none =>
    match jsonLoads (fixMalformedJson t) with
    | some v => .ok v
    | none =>
      match pyLiteral (replacePyLiterals t) with
      | some v => .ok v
      | none => .error (("No se pudo parsear el JSON").toList)

-- ======================================================================
-- services/webhook/handler.py : OrdenCompraInput and normalization
-- ======================================================================

/-- A value of the pydantic `Union[float, str]` amount fields. -/
inductive NumStr where
  | num (q : ℚ)
  | str (s : Str)

/-- Python truthiness of an amount value. -/
def numStrTruthy : NumStr → Bool
  | .num q => q ≠ 0
  | .str s => !s.isEmpty

/-- First truthy value of a Python `a or b or c` chain over optional
amounts. -/
def pyOrNumStr : List (Option NumStr) → Option NumStr
  | [] => none
  | o :: rest =>
    match o with
    | some v => if numStrTruthy v then some v else pyOrNumStr rest
    | none => pyOrNumStr rest

/-- Model of Python `float(string)`: optional surrounding whitespace and
sign, then digits with optional fraction and exponent ("1.", ".5" and
"1e3" are accepted).  `inf`/`nan` and digit underscores are not
modelled. -/
def pyFloat (s : Str) : Option ℚ :=
  let t := pyStrip s
  let neg := (signSplit t).1
  let t1 := (signSplit t).2
  let ip := t1.takeWhile Char.isDigit
  let r1 := t1.dropWhile Char.isDigit
  let (fp, r2) : Str × Str :=
    match r1 with
    | '.' :: rr => (rr.takeWhile Char.isDigit, rr.dropWhile Char.isDigit)
    | _ => ([], r1)
  if ip.isEmpty ∧ fp.isEmpty then none
  else
    match parseExpDigits r2 with
    | none => none
    | some (e, r3) =>
      if r3.isEmpty then
        some (porExp10
          ((if neg then (-1 : ℚ) else 1) *
            ((digitsToNat ip : ℚ) + (digitsToNat fp : ℚ) / pow10 fp.length)) e)
      else none

/-- `raw_monto.replace(',', '').replace('$', '').strip()`. -/
def limpiarMonto (s : Str) : Str :=
  pyStrip ((s.filter (fun c => c ≠ ',')).filter (fun c => c ≠ '$'))

/-- The pydantic input model `OrdenCompraInput` (known, typed fields;
unrecognized extra keys are irrelevant to normalization). -/
structure OrdenCompraInput where
  VendorName : Option Str := none
  vendor_name : Option Str := none
  proveedor : Option Str := none
  our_company : Option Str := none
  empresa : Option Str := none
  receptor : Option Str := none
  total : Option NumStr := none
  monto : Option NumStr := none
  amount : Option NumStr := none
  moneda : Option Str := none
  currency : Option Str := none
  id : Option Str := none
  oc_id : Option Str := none
  order_id : Option Str := none
  oc_attached_data : Option JVal := none
  datos_adicionales : Option JVal := none
  concepto : Option Str := none
  description : Option Str := none

/-- The canonical normalized purchase-order dictionary. -/
structure NormalizedOC where
  id : Str
  proveedor : Str
  empresa : Str
  monto : ℚ
  moneda : Str
  datos_adjuntos : Option JVal := none
  concepto : Option JVal := none
  fecha_orden : Option JVal := none
  servicios : Option JVal := none

def objLookup (ms : List (Str × JVal)) (k : Str) : Option JVal :=
  (ms.find? (fun p => p.1 = k)).map (fun p => p.2)

/-- `OrdenCompraInput.to_normalized_dict`, line by line from the source:
every canonical field is a Python `or` chain (first truthy synonym
wins, with the source's order), the amount is coerced with `$`/`,`
stripping and degrades to 0.0 on failure, the currency is upper-cased
with default MXN, and the attached-data object is merged only when it
is a mapping. -/
def OrdenCompraInput.to_normalized_dict (self : OrdenCompraInput) : NormalizedOC :=
  let prov := (pyOrStr [self.proveedor, self.VendorName, self.vendor_name]).getD (("N/A").toList)
  let emp := (pyOrStr [self.empresa, self.our_company, self.receptor]).getD (("N/A").toList)
  let rawMonto := (pyOrNumStr [self.monto, self.total, self.amount]).getD (.num 0)
  let mnt : ℚ :=
    match rawMonto with
    | .num q => q
    | .str s => (pyFloat (limpiarMonto s)).getD 0
  let mon := pyUpper ((pyOrStr [self.moneda, self.currency]).getD (("MXN").toList))
  let oid := (pyOrStr [self.id, self.oc_id, self.order_id]).getD (("N/A").toList)
  let base : NormalizedOC :=
    { id := oid, proveedor := prov, empresa := emp, monto := mnt, moneda := mon }
  let adj : Option JVal :=
    match self.oc_attached_data with
    | some a => if jvalTruthy a then some a else self.datos_adicionales
    | none => self.datos_adicionales
  match adj with
  | some (.obj ms) =>
    let b1 := { base with datos_adjuntos := some (.obj ms) }
    let b2 :=
      match objLookup ms (("oc_subject").toList) with
      | some v => { b1 with concepto := some v }
      | none => b1
    let b3 :=
      match objLookup ms (("oc_poDate").toList) with
      | some v => { b2 with fecha_orden := some v }
      | none => b2
    let sv : Option JVal :=
      match objLookup ms (("adquired_services").toList) with
      | some v => if jvalTruthy v then some v else objLookup ms (("adquired_serviecs").toList)
      | none => objLookup ms (("adquired_serviecs").toList)
    match sv with
    | some v => if jvalTruthy v then { b3 with servicios := some v } else b3
    | none => b3
  | _ => base

-- ======================================================================
-- services/webhook/handler.py : the /webhook endpoint
-- ======================================================================

/-- A processed purchase-order list entry: the normalized dictionary, or
the raw parsed item when pydantic validation failed or the item was not
an object. -/
inductive OCFinal where
  | normalizada (oc : NormalizedOC)
  | cruda (item : JVal)

/-- pydantic construction `OrdenCompraInput(**item)`: typed fields are
read from the object; a type mismatch is a validation error (`none`).
Numbers are accepted for the `Union[float, str]` amount fields, strings
for the string fields, objects for the attached-data fields (pydantic
version-specific coercions of other primitives are not modelled — no
claim depends on them). -/
def getStrField (ms : List (Str × JVal)) (k : Str) : Option (Option Str) :=
  match objLookup ms k with
  | none => some none
  | some .null => some none
  | some (.str s) => some (some s)
  | some _ => none

def getNumStrField (ms : List (Str × JVal)) (k : Str) : Option (Option NumStr) :=
  match objLookup ms k with
  | none => some none
  | some .null => some none
  | some (.num q) => some (some (.num q))
  | some (.str s) => some (some (.str s))
  | some (.bool b) => some (some (.num (if b then 1 else 0)))
  | some _ => none

def getDictField (ms : List (Str × JVal)) (k : Str) : Option (Option JVal) :=
  match objLookup ms k with
  | none => some none
  | some .null => some none
  | some (.obj m) => some (some (.obj m))
  | some _ => none

def ocFromJVal (ms : List (Str × JVal)) : Option OrdenCompraInput :=
  if (getStrField ms (("VendorName").toList)).isSome ∧
     (getStrField ms (("vendor_name").toList)).isSome ∧
     (getStrField ms (("proveedor").toList)).isSome ∧
     (getStrField ms (("our_company").toList)).isSome ∧
     (getStrField ms (("empresa").toList)).isSome ∧
     (getStrField ms (("receptor").toList)).isSome ∧
     (getNumStrField ms (("total").toList)).isSome ∧
     (getNumStrField ms (("monto").toList)).isSome ∧
     (getNumStrField ms (("amount").toList)).isSome ∧
     (getStrField ms (("moneda").toList)).isSome ∧
     (getStrField ms (("currency").toList)).isSome ∧
     (getStrField ms (("id").toList)).isSome ∧
     (getStrField ms (("oc_id").toList)).isSome ∧
     (getStrField ms (("order_id").toList)).isSome ∧
     (getDictField ms (("oc_attached_data").toList)).isSome ∧
     (getDictField ms (("datos_adicionales").toList)).isSome ∧
     (getStrField ms (("concepto").toList)).isSome ∧
     (getStrField ms (("description").toList)).isSome then
    some { VendorName := (getStrField ms (("VendorName").toList)).join
           vendor_name := (getStrField ms (("vendor_name").toList)).join
           proveedor := (getStrField ms (("proveedor").toList)).join
           our_company := (getStrField ms (("our_company").toList)).join
           empresa := (getStrField ms (("empresa").toList)).join
           receptor := (getStrField ms (("receptor").toList)).join
           total := (getNumStrField ms (("total").toList)).join
           monto := (getNumStrField ms (("monto").toList)).join
           amount := (getNumStrField ms (("amount").toList)).join
           moneda := (getStrField ms (("moneda").toList)).join
           currency := (getStrField ms (("currency").toList)).join
           id := (getStrField ms (("id").toList)).join
           oc_id := (getStrField ms (("oc_id").toList)).join
           order_id := (getStrField ms (("order_id").toList)).join
           oc_attached_data := (getDictField ms (("oc_attached_data").toList)).join
           datos_adicionales := (getDictField ms (("datos_adicionales").toList)).join
           concepto := (getStrField ms (("concepto").toList)).join
           description := (getStrField ms (("description").toList)).join }
  else none

/-- One item of the parsed purchase-order list: objects are normalized
(falling back to the raw item if validation fails), anything else is
kept raw. -/
def procesarItem (item : JVal) : OCFinal :=
  match item with
  | .obj ms =>
    match ocFromJVal ms with
    | some oc => .normalizada oc.to_normalized_dict
    | none => .cruda item
  | _ => .cruda item

/-- `_clean_json_string`: newline → space, CR removed, tab → space, then
all remaining control characters 0x00–0x1f / 0x7f–0x9f removed. -/
def cleanJsonString (s : Str) : Str :=
  let s1 := s.map (fun c => if c = '\n' then ' ' else c)
  let s2 := s1.filter (fun c => c ≠ '\r')
  let s3 := s2.map (fun c => if c = '\t' then ' ' else c)
  s3.filter (fun c => !(c.toNat ≤ 0x1f || (0x7f ≤ c.toNat && c.toNat ≤ 0x9f)))

/-- The three parse phases of the endpoint: direct flexible parse, then
after un-escaping `\"`, then after control-character cleanup plus
un-escaping; `none` when all three fail. -/
def rawListOf (o : Str) : Option JVal :=
  match parseFlexibleJson o with
  | .ok v => some v
  | .error _ =>
    match parseFlexibleJson (strReplace ['\\', '"'] ['"'] o) with
    | .ok v => some v
    | .error _ =>
      match parseFlexibleJson (strReplace ['\\', '"'] ['"'] (cleanJsonString o)) with
      | .ok v => some v
      | .error _ => none

/-- Python iteration over the (possibly wrapped) parse result: lists
yield their items, strings yield their characters, dicts their keys;
other values raise `TypeError`. -/
def iterableItems : JVal → Option (List JVal)
  | .arr l => some l
  | .str s => some (s.map (fun c => .str [c]))
  | .obj ms => some (ms.map (fun p => .str p.1))
  | _ => none

/-- The `ocs_finales` computation of the endpoint.  `.error` models the
`TypeError` raised by iterating a truthy non-iterable parse result,
which escapes to the endpoint's catch-all handler. -/
def ocsFinalesResult (ordenes : Option Str) : Except Str (List OCFinal) :=
  match ordenes with
  | none => .ok []
  | some o =>
    if strTruthy o then
      match rawListOf o with
      | none => .ok []
      | some rl =>
        if jvalTruthy rl then
          let rl2 : JVal := match rl with | .obj ms => .arr [.obj ms] | v => v
          match iterableItems rl2 with
          | some items => .ok (items.map procesarItem)
          | none => .error (("TypeError: el objeto no es iterable").toList)
        else .ok []
    else .ok []

/-- Standard base64 alphabet. -/
def base64Table : Str :=
  ("ABCDEFGHIJKLMNOPQRSTUVWXYZabcdefghijklmnopqrstuvwxyz0123456789+/").toList

def b64Char (n : Nat) : Char := (base64Table.get? n).getD 'A'

/-- `base64.b64encode` on a byte list. -/
def b64Encode : List Nat → Str
  | [] => []
  | [a] => [b64Char (a / 4), b64Char (a % 4 * 16), '=', '=']
  | [a, b] => [b64Char (a / 4), b64Char (a % 4 * 16 + b / 16), b64Char (b % 16 * 4), '=']
  | a :: b :: c :: rest =>
    b64Char (a / 4) :: b64Char (a % 4 * 16 + b / 16) ::
    b64Char (b % 16 * 4 + c / 64) :: b64Char (c % 64) :: b64Encode rest

/-- The persisted record row (`RegistroWebhook`).  `fecha_recepcion` is
non-nullable with a default in the schema, hence total here. -/
structure RegistroWebhook where
  id : Nat
  fecha_recepcion : Nat
  ordenes_de_compra : Option (List OCFinal) := none
  factura_base64 : Option Str := none
  procesado : Bool := false
  tiene_oc : Bool := false
  tiene_factura : Bool := false
  resultado_validacion : Option Str := none
  es_anomalia : Bool := false
  tipo_anomalia : Option Str := none
  datos_factura_json : Option JVal := none
  fecha_procesamiento : Option Nat := none

/-- `num_ordenes` property. -/
def numOrdenes (r : RegistroWebhook) : Nat :=
  match r.ordenes_de_compra with
  | some l => l.length
  | none => 0

/-- The record store: the rows plus the autoincrement counter. -/
structure Store where
  rows : List RegistroWebhook := []
  nextId : Nat := 1

/-- `_guardar_registro_sync`: insert one new, unprocessed row and return
its assigned id. -/
def guardarRegistroSync (st : Store) (facturaB64 : Option Str) (ocs : List OCFinal)
    (now : Nat) : Store × Nat :=
  let nuevo : RegistroWebhook :=
    { id := st.nextId
      fecha_recepcion := now
      ordenes_de_compra := if ocs.isEmpty then none else some ocs
      factura_base64 := facturaB64
      tiene_oc := !ocs.isEmpty
      tiene_factura := match facturaB64 with | some s => !s.isEmpty | none => false }
  ({ rows := st.rows ++ [nuevo], nextId := st.nextId + 1 }, st.nextId)

/-- `factura_b64`: the uploaded file is encoded only when non-empty. -/
def facturaB64Of (factura : Option (List Nat)) : Option Str :=
  match factura with
  | some content => if content.length > 0 then some (b64Encode content) else none
  | none => none

inductive WebhookResponse where
  | ignored
  | success (registro_id : Nat)
  | serverError (detail : Str)
deriving DecidableEq

/-- The `POST /webhook` endpoint: encode the invoice, run the
purchase-order phases, answer `ignored` without persisting when nothing
usable remains, otherwise insert exactly one record. -/
def receiveWebhook (factura : Option (List Nat)) (ordenes : Option Str)
    (st : Store) (now : Nat) : WebhookResponse × Store :=
  let fb := facturaB64Of factura
  match ocsFinalesResult ordenes with
  | .error e => (.serverError e, st)
  | .ok ocs =>
    if fb.isNone ∧ ocs.isEmpty then (.ignored, st)
    else
      let p := guardarRegistroSync st fb ocs now
      (.success p.2, p.1)

/-- The endpoint with the whole purchase-order computation (the three
parse phases plus the item loop) abstracted as a parameter, in the
style of the batch engine's collaborator abstraction: what remains
concrete is the routing of `receive_webhook` itself — the catch-all
500 answer when that computation raises, the ignored/no-op answer when
no usable invoice and no order remain, and otherwise a single insert.
`receiveWebhook` is the instance at the modelled pipeline. -/
def receiveWebhookCon (ocsDe : Option Str → Except Str (List OCFinal))
    (factura : Option (List Nat)) (ordenes : Option Str)
    (st : Store) (now : Nat) : WebhookResponse × Store :=
  let fb := facturaB64Of factura
  match ocsDe ordenes with
  | .error e => (.serverError e, st)
  | .ok ocs =>
    if fb.isNone ∧ ocs.isEmpty then (.ignored, st)
    else
      let p := guardarRegistroSync st fb ocs now
      (.success p.2, p.1)

-- ======================================================================
-- services/validator/validator.py : the validation engine
-- ======================================================================

def TipoAnomalia_SIN_OC : Str := ("sin_oc").toList

def TipoAnomalia_SIN_FACTURA : Str := ("sin_factura").toList

def TipoAnomalia_SIN_OC_NI_FACTURA : Str := ("sin_oc_ni_factura").toList

def TipoAnomalia_ERROR_PROCESAMIENTO : Str := ("error_procesamiento_factura").toList

def TipoAnomalia_DISCREPANCIAS : Str := ("discrepancias_encontradas").toList

/-- Outcome of one call to the extraction collaborator
(`extraer_datos_factura`): a returned value (possibly `None`), or a
raised exception with its text. -/
inductive ExtractResult where
  | ok (datos : Option JVal)
  | exc (msg : Str)

/-- Outcome of the raw chat-completion call inside
`comparar_factura_oc`: returned text, or a raised exception. -/
inductive CompareResult where
  | ret (texto : Str)
  | exc (msg : Str)

/-- The external AI collaborator (`OpenAIService`), abstracted at its
interface boundary: what extraction returns for an invoice blob, and
what the comparison chat call returns for extracted data plus the
purchase-order list. -/
structure OpenAIServiceModel where
  extraer : Str → ExtractResult
  comparar : JVal → Option (List OCFinal) → CompareResult

/-- `comparar_factura_oc`: the response text stripped, or — when the
call raises — the caught-and-formatted error string.  Never raises. -/
def compararFacturaOC (svc : OpenAIServiceModel) (datos : JVal)
    (ocs : Option (List OCFinal)) : Str :=
  match svc.comparar datos ocs with
  | .ret t => pyStrip t
  | .exc m => ("Error en comparación: ").toList ++ m

/-- The per-record outcome dictionary built by
`_validar_registro_individual` (and by the batch-level error handler,
which omits `num_ordenes`). -/
structure ResultadoValidacion where
  registro_id : Nat
  fecha_recepcion : Nat
  tiene_oc : Bool
  tiene_factura : Bool
  es_anomalia : Bool
  tipo_anomalia : Option Str
  resultado_openai : Option Str
  datos_factura : Option JVal
  num_ordenes : Option Nat
  factura_base64_raw : Option Str

/-- The classification applied to the comparison text (source lines
166–174): non-anomalous iff the stripped, upper-cased text contains
`OK` and does not contain `DISCREPANCIA`. -/
def comparacionSinDiscrepancias (t : Str) : Bool :=
  containsSub (pyUpper (pyStrip t)) (("OK").toList) &&
  !containsSub (pyUpper (pyStrip t)) (("DISCREPANCIA").toList)

/-- `_validar_registro_individual`: the decision sequence — missing
invoice cases first (no collaborator touched), then extraction (always,
when an invoice exists), then the missing-purchase-order case (sentinel
result, extracted data retained), then comparison and classification,
with the extraction-failure fallback. -/
def validarRegistroIndividual (svc : OpenAIServiceModel) (r : RegistroWebhook) :
    ResultadoValidacion :=
  let base : ResultadoValidacion :=
    { registro_id := r.id
      fecha_recepcion := r.fecha_recepcion
      tiene_oc := r.tiene_oc
      tiene_factura := r.tiene_factura
      es_anomalia := false
      tipo_anomalia := none
      resultado_openai := none
      datos_factura := none
      num_ordenes := some (numOrdenes r)
      factura_base64_raw := r.factura_base64 }
  if !r.tiene_factura then
    if !r.tiene_oc then
      { base with es_anomalia := true, tipo_anomalia := some TipoAnomalia_SIN_OC_NI_FACTURA }
    else
      { base with es_anomalia := true, tipo_anomalia := some TipoAnomalia_SIN_FACTURA }
  else
    let extrRes := svc.extraer (r.factura_base64.getD [])
    let datos : Option JVal := match extrRes with | .ok d => d | .exc _ => none
    let base2 : ResultadoValidacion :=
      match extrRes with
      | .ok d => { base with datos_factura := d }
      | .exc _ => base
    if !r.tiene_oc then
      { base2 with es_anomalia := true
                   tipo_anomalia := some TipoAnomalia_SIN_OC
                   resultado_openai := some (("No se pudo comparar: Falta Orden de Compra.").toList) }
    else
      let fallo : ResultadoValidacion :=
        { base2 with es_anomalia := true
                     tipo_anomalia := some TipoAnomalia_ERROR_PROCESAMIENTO
                     resultado_openai :=
                       match base2.resultado_openai with
                       | some s => if strTruthy s then some s
                                   else some (("Falló la extracción de datos del PDF.").toList)
                       | none => some (("Falló la extracción de datos del PDF.").toList) }
      match datos with
      | some d =>
        if jvalTruthy d then
          let comparacion := compararFacturaOC svc d r.ordenes_de_compra
          if comparacionSinDiscrepancias comparacion then
            { base2 with resultado_openai := some comparacion, es_anomalia := false }
          else
            { base2 with resultado_openai := some comparacion
                         es_anomalia := true
                         tipo_anomalia := some TipoAnomalia_DISCREPANCIAS }
        else fallo
      | none => fallo

/-- The record as rewritten by `_actualizar_registro`: one update
setting `procesado` together with every outcome column. -/
def aplicarResultado (r : RegistroWebhook) (res : ResultadoValidacion) (now : Nat) :
    RegistroWebhook :=
  { r with procesado := true
           es_anomalia := res.es_anomalia
           tipo_anomalia := res.tipo_anomalia
           resultado_validacion := res.resultado_openai
           datos_factura_json := res.datos_factura
           fecha_procesamiento := some now }

/-- `_actualizar_registro` over the store: update the row(s) with the
given id. -/
def actualizarRegistro (st : Store) (rid : Nat) (res : ResultadoValidacion)
    (now : Nat) : Store :=
  { st with rows := st.rows.map (fun r => if r.id = rid then aplicarResultado r res now else r) }

/-- The error outcome built in the batch loop's exception handler
(`except` branch of `validar_todos_los_registros`); note it has no
`num_ordenes` entry and carries `Error: ` plus the exception text. -/
def resultadoError (r : RegistroWebhook) (e : Str) : ResultadoValidacion :=
  { registro_id := r.id
    fecha_recepcion := r.fecha_recepcion
    tiene_oc := r.tiene_oc
    tiene_factura := r.tiene_factura
    es_anomalia := true
    tipo_anomalia := some TipoAnomalia_ERROR_PROCESAMIENTO
    resultado_openai := some ((("Error: ").toList) ++ e)
    datos_factura := none
    num_ordenes := none
    factura_base64_raw := r.factura_base64 }

/-- Insertion step of the ascending `fecha_recepcion` ordering. -/
def insertarPorFecha (r : RegistroWebhook) : List RegistroWebhook → List RegistroWebhook
  | [] => [r]
  | x :: xs =>
    if r.fecha_recepcion < x.fecha_recepcion then r :: x :: xs
    else x :: insertarPorFecha r xs

/-- `ORDER BY fecha_recepcion ASC` (stable; equal keys keep their
relative order, a deterministic model of the SQL ordering). -/
def ordenarPorFecha : List RegistroWebhook → List RegistroWebhook
  | [] => []
  | r :: rest => insertarPorFecha r (ordenarPorFecha rest)

/-- `_obtener_registros_pendientes`: all rows with `procesado = false`,
oldest first.  (The query's second conjunct, `fecha_recepcion != None`,
is always true: the column is non-nullable with a default.) -/
def obtenerRegistrosPendientes (st : Store) : List RegistroWebhook :=
  ordenarPorFecha (st.rows.filter (fun r => !r.procesado))

/-- The batch loop of `validar_todos_los_registros` over an already
selected list of records.  `process` is the body of the per-record
`try` block; a `.error` models an uncaught exception there, which the
loop converts into a `resultadoError`, still persisting it, and then
continues with the remaining records. -/
def procesarLote (process : RegistroWebhook → Except Str ResultadoValidacion) (now : Nat) :
    List RegistroWebhook → Store → List ResultadoValidacion × Store
  | [], st => ([], st)
  | r :: rest, st =>
    match process r with
    | .ok res =>
      let st2 := actualizarRegistro st r.id res now
      let p := procesarLote process now rest st2
      (res :: p.1, p.2)
    | .error e =>
      let res := resultadoError r e
      let st2 := actualizarRegistro st r.id res now
      let p := procesarLote process now rest st2
      (res :: p.1, p.2)

/-- The batch entry point over an arbitrary per-record body. -/
def validarLote (process : RegistroWebhook → Except Str ResultadoValidacion)
    (st : Store) (now : Nat) : List ResultadoValidacion × Store :=
  procesarLote process now (obtenerRegistrosPendientes st) st

/-- `validar_todos_los_registros` with the real per-record body. -/
def validarTodosLosRegistros (svc : OpenAIServiceModel) (st : Store) (now : Nat) :
    List ResultadoValidacion × Store :=
  validarLote (fun r => .ok (validarRegistroIndividual svc r)) st now

-- ======================================================================
-- The system's operations on the store (for the record-lifecycle
-- invariants): webhook ingestion and validation batches.
-- ======================================================================

inductive SistemaOp where
  | ingesta (factura : Option (List Nat)) (ordenes : Option Str) (now : Nat)
  | lote (process : RegistroWebhook → Except Str ResultadoValidacion) (now : Nat)

def aplicarOp (st : Store) : SistemaOp → Store
  | .ingesta f o now => (receiveWebhook f o st now).2
  | .lote p now => (validarLote p st now).2

/-- The record-outcome invariant of the spec: an unprocessed row has no
anomaly flag, no anomaly kind and no processing timestamp. -/
def registroLimpio (r : RegistroWebhook) : Prop :=
  r.procesado = false →
    r.es_anomalia = false ∧ r.tipo_anomalia = none ∧ r.fecha_procesamiento = none

def storeRegistrosLimpios (st : Store) : Prop :=
  ∀ r ∈ st.rows, registroLimpio r

/-- Well-formedness maintained by the store itself: primary-key ids are
distinct and below the autoincrement counter. -/
def storeIdsOk (st : Store) : Prop :=
  (st.rows.map (fun r => r.id)).Nodup ∧ ∀ r ∈ st.rows, r.id < st.nextId

-- ======================================================================
-- Definitions taken from the spec's words (for refinement comparison
-- against the code), and concrete fixtures used by witnesses.
-- ======================================================================

/-- The outcome classification exactly as the claim/spec words it, with
the token spelling `DISCREPANCY` (to be compared with the code's rule
`comparacionSinDiscrepancias`, which uses `DISCREPANCIA`). -/
def clasificacionSpecOk (t : Str) : Bool :=
  containsSub (pyUpper (pyStrip t)) (("OK").toList) &&
  !containsSub (pyUpper (pyStrip t)) (("DISCREPANCY").toList)

/-- The supplier resolution exactly as the claim/spec words it:
`VendorName`, then `vendor_name`, then `proveedor` (to be compared with
the code's order in `to_normalized_dict`). -/
def proveedorSpecOrder (oc : OrdenCompraInput) : Str :=
  (pyOrStr [oc.VendorName, oc.vendor_name, oc.proveedor]).getD (("N/A").toList)

/-- An optional string that Python's `or` chain skips (absent or empty). -/
def opcionFalsy (o : Option Str) : Prop :=
  ∀ s, o = some s → strTruthy s = false

/-- Lookup of a row by primary key. -/
def rowById (st : Store) (i : Nat) : Option RegistroWebhook :=
  st.rows.find? (fun r => r.id = i)

/-- Extraction result as recorded by the validator (the value on
`.ok`, nothing on a raised exception). -/
def datosExtraidos (svc : OpenAIServiceModel) (r : RegistroWebhook) : Option JVal :=
  match svc.extraer (r.factura_base64.getD []) with
  | .ok d => d
  | .exc _ => none

-- Concrete fixtures for witnesses and counterexamples.

def svcOkW : OpenAIServiceModel :=
  { extraer := fun _ => .ok (some (.obj [(("proveedor").toList, .str (("ACME").toList))]))
    comparar := fun _ _ => .ret (("OK - coincide").toList) }

def regSinNadaW : RegistroWebhook := { id := 1, fecha_recepcion := 0 }

def regSinFacturaW : RegistroWebhook :=
  { id := 2, fecha_recepcion := 0, tiene_oc := true,
    ordenes_de_compra := some [.cruda .null] }

def regSinOcW : RegistroWebhook :=
  { id := 3, fecha_recepcion := 0, tiene_factura := true,
    factura_base64 := some (("QQ==").toList) }

def regCompletoW : RegistroWebhook :=
  { id := 4, fecha_recepcion := 0, tiene_factura := true, tiene_oc := true,
    factura_base64 := some (("QQ==").toList),
    ordenes_de_compra := some [.cruda .null] }

/-- A comparison text containing both the `OK` token and the spec's
`DISCREPANCY` token (but not the code's `DISCREPANCIA`). -/
def textoAmbiguoC2 : Str := ("OK, pero se via una DISCREPANCY en el total").toList

def svcAmbiguoC2 : OpenAIServiceModel :=
  { extraer := fun _ => .ok (some (.obj [(("proveedor").toList, .str (("ACME").toList))]))
    comparar := fun _ _ => .ret textoAmbiguoC2 }

/-- A collaborator whose comparison call raises with a text whose
upper-casing contains `OK` (inside the word BROKEN). -/
def svcRotoC10 : OpenAIServiceModel :=
  { extraer := fun _ => .ok (some (.obj [(("proveedor").toList, .str (("ACME").toList))]))
    comparar := fun _ _ => .exc (("Broken pipe").toList) }

def svcTimeoutC10 : OpenAIServiceModel :=
  { extraer := fun _ => .ok (some (.obj [(("proveedor").toList, .str (("ACME").toList))]))
    comparar := fun _ _ => .exc (("tiempo de espera agotado").toList) }

/-- Purchase-order input with both `VendorName` and `proveedor`
populated (the C5 experiment). -/
def ocAmbosProveedoresW : OrdenCompraInput :=
  { VendorName := some (("ACME").toList), proveedor := some (("Distribuidora Norte").toList) }

def ocSoloVendorW : OrdenCompraInput := { VendorName := some (("ACME").toList) }

def ocVacioW : OrdenCompraInput := {}

def ocMontoFmtW : OrdenCompraInput := { total := some (.str (("$1,200.50").toList)) }

def ocMontoBasuraW : OrdenCompraInput := { total := some (.str (("garbage").toList)) }

def storeVacioW : Store := {}

def storeUnoW : Store := { rows := [regSinNadaW], nextId := 2 }

/-- A per-record body that always raises (for exercising the batch
loop's exception handler). -/
def procesoFallaW : RegistroWebhook → Except Str ResultadoValidacion :=
  fun _ => .error (("disco lleno").toList)

/-- A valid JSON text with surrounding whitespace, for the strict-parse
refinement witness. -/
def textoJsonW : Str := ("  \x7b\"a\": [true, null]\x7d  ").toList

def valorJsonW : JVal := .obj [((['a'] : Str), .arr [.bool true, .null])]

/-- The structured data `svcOkW`'s extraction returns. -/
def datosOkW : JVal := .obj [(("proveedor").toList, .str (("ACME").toList))]

/-- The string `comparar_factura_oc` returns when the underlying call
raises with text `m`. -/
def errorComparacion (m : Str) : Str := ("Error en comparación: ").toList ++ m

/-- The float coercion applied to the selected raw amount. -/
def montoDe : NumStr → ℚ
  | .num q => q
  | .str s => (pyFloat (limpiarMonto s)).getD 0

-- ======================================================================
-- General helper lemmas
-- ======================================================================

theorem jsonWs_pyWs {c : Char} (h : isJsonWs c = true) : isPyWs c = true := by
  simp [isPyWs, h]

-- ======================================================================
-- C1 : the missing-data cases of the decision sequence
-- ======================================================================

/-- C1: a record without invoice and without purchase orders is
classified anomalous `sin_oc_ni_factura`; without invoice but with
purchase orders, `sin_factura` — in both cases the outcome is the same
for every collaborator (extraction/comparison never invoked).  A record
with invoice but without purchase orders is classified anomalous
`sin_oc` with the fixed sentinel `validation_result`; extraction is
still attempted first and its value (if any) is retained in the
outcome, and the outcome does not depend on the comparison
collaborator. -/
theorem validacion_datos_faltantes (svc : OpenAIServiceModel) (r : RegistroWebhook) :
    (r.tiene_factura = false → r.tiene_oc = false →
      (validarRegistroIndividual svc r).es_anomalia = true ∧
      (validarRegistroIndividual svc r).tipo_anomalia = some TipoAnomalia_SIN_OC_NI_FACTURA ∧
      ∀ svc2, validarRegistroIndividual svc2 r = validarRegistroIndividual svc r) ∧
    (r.tiene_factura = false → r.tiene_oc = true →
      (validarRegistroIndividual svc r).es_anomalia = true ∧
      (validarRegistroIndividual svc r).tipo_anomalia = some TipoAnomalia_SIN_FACTURA ∧
      ∀ svc2, validarRegistroIndividual svc2 r = validarRegistroIndividual svc r) ∧
    (r.tiene_factura = true → r.tiene_oc = false →
      (validarRegistroIndividual svc r).es_anomalia = true ∧
      (validarRegistroIndividual svc r).tipo_anomalia = some TipoAnomalia_SIN_OC ∧
      (validarRegistroIndividual svc r).resultado_openai =
        some (("No se pudo comparar: Falta Orden de Compra.").toList) ∧
      (validarRegistroIndividual svc r).datos_factura = datosExtraidos svc r ∧
      ∀ svc2, svc2.extraer = svc.extraer →
        validarRegistroIndividual svc2 r = validarRegistroIndividual svc r) := by
  refine ⟨?_, ?_, ?_⟩
  · intro h1 h2
    refine ⟨?_, ?_, ?_⟩ <;>
      simp [validarRegistroIndividual, h1, h2]
  · intro h1 h2
    refine ⟨?_, ?_, ?_⟩ <;>
      simp [validarRegistroIndividual, h1, h2]
  · intro h1 h2
    refine ⟨?_, ?_, ?_, ?_, ?_⟩
    · simp [validarRegistroIndividual, h1, h2]
    · simp [validarRegistroIndividual, h1, h2]
    · simp [validarRegistroIndividual, h1, h2]
    · simp only [validarRegistroIndividual, h1, h2, datosExtraidos]
      cases hE : svc.extraer (r.factura_base64.getD []) <;> simp [hE]
    · intro svc2 hext
      simp [validarRegistroIndividual, h1, h2, hext]

/-- Witness for C1 at three concrete records. -/
theorem validacion_datos_faltantes_witness :
    (validarRegistroIndividual svcOkW regSinNadaW).tipo_anomalia =
      some TipoAnomalia_SIN_OC_NI_FACTURA ∧
    (validarRegistroIndividual svcOkW regSinFacturaW).tipo_anomalia =
      some TipoAnomalia_SIN_FACTURA ∧
    (validarRegistroIndividual svcOkW regSinOcW).tipo_anomalia =
      some TipoAnomalia_SIN_OC ∧
    (validarRegistroIndividual svcOkW regSinOcW).datos_factura =
      datosExtraidos svcOkW regSinOcW :=
  ⟨(((validacion_datos_faltantes svcOkW regSinNadaW).1 rfl rfl).2).1,
   (((validacion_datos_faltantes svcOkW regSinFacturaW).2.1 rfl rfl).2).1,
   (((validacion_datos_faltantes svcOkW regSinOcW).2.2 rfl rfl).2).1,
   (((validacion_datos_faltantes svcOkW regSinOcW).2.2 rfl rfl).2).2.2.1⟩

-- ======================================================================
-- C2 : classification of the comparison text
-- ======================================================================

/-- C2, counterexample: on the text `OK, pero se via una DISCREPANCY en
el total` — which contains both the `OK` token and the spec's
`DISCREPANCY` token — the claim's rule classifies anomalous
(discrepancy dominates), but the code classifies non-anomalous, because
the code's negative token is `DISCREPANCIA`, which does not occur. -/
theorem clasificacion_comparacion_contraejemplo :
    clasificacionSpecOk textoAmbiguoC2 = false ∧
    (validarRegistroIndividual svcAmbiguoC2 regCompletoW).es_anomalia = false ∧
    (validarRegistroIndividual svcAmbiguoC2 regCompletoW).tipo_anomalia = none := by
  refine ⟨by decide, by decide, by decide⟩

/-- C2 (amended: the code's negative token is spelled `DISCREPANCIA`,
not `DISCREPANCY`): for a record with invoice, purchase orders and a
truthy extraction, the outcome is a pure function of the comparison
text `t`: the stored result is the stripped text, the record is
non-anomalous exactly when the stripped upper-cased text contains `OK`
and not `DISCREPANCIA`, and otherwise the kind is
`discrepancias_encontradas` (so a text with both tokens is anomalous). -/
theorem clasificacion_comparacion (svc : OpenAIServiceModel) (r : RegistroWebhook)
    (d : JVal) (t : Str)
    (hf : r.tiene_factura = true) (ho : r.tiene_oc = true)
    (hex : svc.extraer (r.factura_base64.getD []) = .ok (some d))
    (hd : jvalTruthy d = true)
    (hcmp : svc.comparar d r.ordenes_de_compra = .ret t) :
    (validarRegistroIndividual svc r).resultado_openai = some (pyStrip t) ∧
    (validarRegistroIndividual svc r).es_anomalia =
      !comparacionSinDiscrepancias (pyStrip t) ∧
    (comparacionSinDiscrepancias (pyStrip t) = true →
      (validarRegistroIndividual svc r).tipo_anomalia = none) ∧
    (comparacionSinDiscrepancias (pyStrip t) = false →
      (validarRegistroIndividual svc r).tipo_anomalia = some TipoAnomalia_DISCREPANCIAS) := by
  have hcomp : compararFacturaOC svc d r.ordenes_de_compra = pyStrip t := by
    simp [compararFacturaOC, hcmp]
  by_cases hc : comparacionSinDiscrepancias (pyStrip t) = true
  · refine ⟨?_, ?_, ?_, ?_⟩ <;>
      simp [validarRegistroIndividual, hf, ho, hex, hd, hcomp, hc]
  · rw [Bool.not_eq_true] at hc
    refine ⟨?_, ?_, ?_, ?_⟩ <;>
      simp [validarRegistroIndividual, hf, ho, hex, hd, hcomp, hc]

/-- Witness for the amended C2 on the text `OK - coincide`. -/
theorem clasificacion_comparacion_witness :
    (validarRegistroIndividual svcOkW regCompletoW).es_anomalia =
      !comparacionSinDiscrepancias (pyStrip (("OK - coincide").toList)) ∧
    (validarRegistroIndividual svcOkW regCompletoW).tipo_anomalia = none :=
  ⟨(clasificacion_comparacion svcOkW regCompletoW datosOkW (("OK - coincide").toList)
      rfl rfl rfl (by decide) rfl).2.1,
   (clasificacion_comparacion svcOkW regCompletoW datosOkW (("OK - coincide").toList)
      rfl rfl rfl (by decide) rfl).2.2.1 (by decide)⟩

-- ======================================================================
-- C10 : comparison-collaborator failure handling
-- ======================================================================

/-- C10, counterexample: when the comparison call raises `Broken pipe`,
the caught error string is returned (never re-raised), but its
upper-casing `...BROKEN PIPE` contains the token `OK`, so the engine
classifies the record NON-anomalous — not `discrepancias_encontradas`
as the claim asserts. -/
theorem comparacion_excepcion_contraejemplo :
    compararFacturaOC svcRotoC10 datosOkW regCompletoW.ordenes_de_compra =
      ("Error en comparación: Broken pipe").toList ∧
    (validarRegistroIndividual svcRotoC10 regCompletoW).es_anomalia = false ∧
    (validarRegistroIndividual svcRotoC10 regCompletoW).tipo_anomalia = none := by
  refine ⟨by decide, by decide, by decide⟩

/-- C10 (amended: the caught error string is classified by the normal
token rule; it yields `discrepancias_encontradas` only when the
resulting text contains no `OK` token — an exception text containing
`OK`, e.g. inside `BROKEN`, is classified non-anomalous;
`error_procesamiento_factura` is never produced by this path): a
failure inside the comparison collaborator never raises past the call
site; the stored result is `Error en comparación: ` followed by the
exception text, the kind is never `error_procesamiento_factura`, and
whenever the stored text's upper-casing lacks `OK` the record is
anomalous with kind `discrepancias_encontradas`. -/
theorem comparacion_excepcion (svc : OpenAIServiceModel) (r : RegistroWebhook)
    (d : JVal) (m : Str)
    (hf : r.tiene_factura = true) (ho : r.tiene_oc = true)
    (hex : svc.extraer (r.factura_base64.getD []) = .ok (some d))
    (hd : jvalTruthy d = true)
    (hcmp : svc.comparar d r.ordenes_de_compra = .exc m) :
    compararFacturaOC svc d r.ordenes_de_compra = errorComparacion m ∧
    (validarRegistroIndividual svc r).resultado_openai = some (errorComparacion m) ∧
    ((validarRegistroIndividual svc r).tipo_anomalia = none ∨
     (validarRegistroIndividual svc r).tipo_anomalia = some TipoAnomalia_DISCREPANCIAS) ∧
    (containsSub (pyUpper (pyStrip (errorComparacion m))) (("OK").toList) = false →
      (validarRegistroIndividual svc r).es_anomalia = true ∧
      (validarRegistroIndividual svc r).tipo_anomalia = some TipoAnomalia_DISCREPANCIAS) := by
  have hcomp : compararFacturaOC svc d r.ordenes_de_compra = errorComparacion m := by
    simp [compararFacturaOC, hcmp, errorComparacion]
  refine ⟨hcomp, ?_, ?_, ?_⟩
  · by_cases hc : comparacionSinDiscrepancias (errorComparacion m) = true
    · simp [validarRegistroIndividual, hf, ho, hex, hd, hcomp, hc]
    · rw [Bool.not_eq_true] at hc
      simp [validarRegistroIndividual, hf, ho, hex, hd, hcomp, hc]
  · by_cases hc : comparacionSinDiscrepancias (errorComparacion m) = true
    · exact Or.inl (by simp [validarRegistroIndividual, hf, ho, hex, hd, hcomp, hc])
    · rw [Bool.not_eq_true] at hc
      exact Or.inr (by simp [validarRegistroIndividual, hf, ho, hex, hd, hcomp, hc])
  · intro hok
    have hok2 : containsSub (pyUpper (pyStrip (errorComparacion m))) (['O', 'K']) = false := hok
    have hc : comparacionSinDiscrepancias (errorComparacion m) = false := by
      simp [comparacionSinDiscrepancias, hok2]
    constructor <;> simp [validarRegistroIndividual, hf, ho, hex, hd, hcomp, hc]

/-- Witness for the amended C10: exception text `tiempo de espera
agotado` (no `OK` anywhere), classified `discrepancias_encontradas`. -/
theorem comparacion_excepcion_witness :
    (validarRegistroIndividual svcTimeoutC10 regCompletoW).resultado_openai =
      some (errorComparacion (("tiempo de espera agotado").toList)) ∧
    (validarRegistroIndividual svcTimeoutC10 regCompletoW).es_anomalia = true ∧
    (validarRegistroIndividual svcTimeoutC10 regCompletoW).tipo_anomalia =
      some TipoAnomalia_DISCREPANCIAS :=
  ⟨(comparacion_excepcion svcTimeoutC10 regCompletoW datosOkW
      (("tiempo de espera agotado").toList) rfl rfl rfl (by decide) rfl).2.1,
   ((comparacion_excepcion svcTimeoutC10 regCompletoW datosOkW
      (("tiempo de espera agotado").toList) rfl rfl rfl (by decide) rfl).2.2.2 (by decide)).1,
   ((comparacion_excepcion svcTimeoutC10 regCompletoW datosOkW
      (("tiempo de espera agotado").toList) rfl rfl rfl (by decide) rfl).2.2.2 (by decide)).2⟩

-- ======================================================================
-- C3 : the batch loop catches per-record failures
-- ======================================================================

/-- C3: when processing one record raises (the per-record body returns
an error), the batch loop catches it: it emits the error outcome —
anomalous, kind `error_procesamiento_factura`, with `Error: ` plus the
exception text as the stored result — still marks that record
`procesado = true` in the store, prepends the outcome to the returned
sequence, and continues with the remaining records. -/
theorem lote_captura_error
    (process : RegistroWebhook → Except Str ResultadoValidacion) (now : Nat)
    (r : RegistroWebhook) (rest : List RegistroWebhook) (st : Store) (e : Str)
    (h : process r = .error e) :
    procesarLote process now (r :: rest) st =
      (resultadoError r e ::
         (procesarLote process now rest (actualizarRegistro st r.id (resultadoError r e) now)).1,
       (procesarLote process now rest (actualizarRegistro st r.id (resultadoError r e) now)).2) ∧
    (resultadoError r e).es_anomalia = true ∧
    (resultadoError r e).tipo_anomalia = some TipoAnomalia_ERROR_PROCESAMIENTO ∧
    (resultadoError r e).resultado_openai = some ((("Error: ").toList) ++ e) ∧
    ∀ row ∈ (actualizarRegistro st r.id (resultadoError r e) now).rows,
      row.id = r.id → row.procesado = true := by
  refine ⟨?_, rfl, rfl, rfl, ?_⟩
  · simp [procesarLote, h]
  · intro row hrow hid
    rcases List.mem_map.mp hrow with ⟨orig, _, horig⟩
    by_cases hcase : orig.id = r.id
    · rw [if_pos hcase] at horig
      rw [← horig]
      rfl
    · rw [if_neg hcase] at horig
      rw [← horig] at hid
      exact absurd hid hcase

/-- Witness for C3 with an always-raising body on a one-row store. -/
theorem lote_captura_error_witness :
    (resultadoError regSinNadaW (("disco lleno").toList)).tipo_anomalia =
      some TipoAnomalia_ERROR_PROCESAMIENTO ∧
    (resultadoError regSinNadaW (("disco lleno").toList)).resultado_openai =
      some ((("Error: ").toList) ++ ("disco lleno").toList) ∧
    procesarLote procesoFallaW 9 [regSinNadaW] storeUnoW =
      (resultadoError regSinNadaW (("disco lleno").toList) ::
         (procesarLote procesoFallaW 9 []
           (actualizarRegistro storeUnoW regSinNadaW.id
             (resultadoError regSinNadaW (("disco lleno").toList)) 9)).1,
       (procesarLote procesoFallaW 9 []
         (actualizarRegistro storeUnoW regSinNadaW.id
           (resultadoError regSinNadaW (("disco lleno").toList)) 9)).2) :=
  ⟨(lote_captura_error procesoFallaW 9 regSinNadaW [] storeUnoW
      (("disco lleno").toList) rfl).2.2.1,
   (lote_captura_error procesoFallaW 9 regSinNadaW [] storeUnoW
      (("disco lleno").toList) rfl).2.2.2.1,
   (lote_captura_error procesoFallaW 9 regSinNadaW [] storeUnoW
      (("disco lleno").toList) rfl).1⟩

-- ======================================================================
-- C5 : synonym resolution order
-- ======================================================================

theorem normalized_proveedor_eq (oc : OrdenCompraInput) :
    (oc.to_normalized_dict).proveedor =
      (pyOrStr [oc.proveedor, oc.VendorName, oc.vendor_name]).getD (("N/A").toList) := by
  unfold OrdenCompraInput.to_normalized_dict
  dsimp only
  repeat' split
  all_goals rfl

/-- C5, counterexample: with both `VendorName` (`ACME`) and `proveedor`
(`Distribuidora Norte`) populated, normalization yields the `proveedor`
value — not the `VendorName` value the claim's documented order
dictates (the spec-order resolution is shown for contrast). -/
theorem orden_sinonimos_contraejemplo :
    ocAmbosProveedoresW.VendorName = some (("ACME").toList) ∧
    ocAmbosProveedoresW.proveedor = some (("Distribuidora Norte").toList) ∧
    (ocAmbosProveedoresW.to_normalized_dict).proveedor = ("Distribuidora Norte").toList ∧
    (ocAmbosProveedoresW.to_normalized_dict).proveedor ≠ ("ACME").toList ∧
    proveedorSpecOrder ocAmbosProveedoresW = ("ACME").toList := by
  refine ⟨rfl, rfl, by decide, by decide, by decide⟩

/-- C5 (amended: the code's fixed resolution order for the supplier is
`proveedor`, then `VendorName`, then `vendor_name`, each field taking
the first truthy synonym, so an input with both `VendorName` and
`proveedor` populated deterministically yields the `proveedor` value):
the supplier resolution tries the synonyms in that order and falls back
to `N/A` when all are falsy. -/
theorem orden_sinonimos_proveedor (oc : OrdenCompraInput) :
    (∀ s, oc.proveedor = some s → strTruthy s = true →
      (oc.to_normalized_dict).proveedor = s) ∧
    (opcionFalsy oc.proveedor → ∀ s, oc.VendorName = some s → strTruthy s = true →
      (oc.to_normalized_dict).proveedor = s) ∧
    (opcionFalsy oc.proveedor → opcionFalsy oc.VendorName →
      ∀ s, oc.vendor_name = some s → strTruthy s = true →
      (oc.to_normalized_dict).proveedor = s) ∧
    (opcionFalsy oc.proveedor → opcionFalsy oc.VendorName → opcionFalsy oc.vendor_name →
      (oc.to_normalized_dict).proveedor = ("N/A").toList) := by
  have hfalsy : ∀ o : Option Str, opcionFalsy o → ∀ rest,
      pyOrStr (o :: rest) = pyOrStr rest := by
    intro o ho rest
    cases hO : o with
    | none => simp [pyOrStr]
    | some s => simp [pyOrStr, ho s hO]
  refine ⟨?_, ?_, ?_, ?_⟩
  · intro s hs ht
    rw [normalized_proveedor_eq]
    simp [pyOrStr, hs, ht]
  · intro h1 s hs ht
    rw [normalized_proveedor_eq, hfalsy _ h1]
    simp [pyOrStr, hs, ht]
  · intro h1 h2 s hs ht
    rw [normalized_proveedor_eq, hfalsy _ h1, hfalsy _ h2]
    simp [pyOrStr, hs, ht]
  · intro h1 h2 h3
    rw [normalized_proveedor_eq, hfalsy _ h1, hfalsy _ h2, hfalsy _ h3]
    rfl

/-- Witness for the amended C5: `proveedor` wins when truthy, the
`VendorName` fallback fires when `proveedor` is absent, and the default
is `N/A`. -/
theorem orden_sinonimos_proveedor_witness :
    (ocAmbosProveedoresW.to_normalized_dict).proveedor = ("Distribuidora Norte").toList ∧
    (ocSoloVendorW.to_normalized_dict).proveedor = ("ACME").toList ∧
    (ocVacioW.to_normalized_dict).proveedor = ("N/A").toList :=
  ⟨(orden_sinonimos_proveedor ocAmbosProveedoresW).1 (("Distribuidora Norte").toList)
      rfl (by decide),
   (orden_sinonimos_proveedor ocSoloVendorW).2.1 (by intro s hs; cases hs)
      (("ACME").toList) rfl (by decide),
   (orden_sinonimos_proveedor ocVacioW).2.2.2 (by intro s hs; cases hs)
      (by intro s hs; cases hs) (by intro s hs; cases hs)⟩

-- ======================================================================
-- C6 : numeric coercion of the amount
-- ======================================================================

set_option maxHeartbeats 1000000 in
theorem normalized_monto_eq (oc : OrdenCompraInput) :
    (oc.to_normalized_dict).monto =
      montoDe ((pyOrNumStr [oc.monto, oc.total, oc.amount]).getD (.num 0)) := by
  cases hM : (pyOrNumStr [oc.monto, oc.total, oc.amount]).getD (.num 0) with
  | num q =>
    unfold OrdenCompraInput.to_normalized_dict
    dsimp only
    rw [hM]
    dsimp only [montoDe]
    repeat' split
    all_goals rfl
  | str s =>
    unfold OrdenCompraInput.to_normalized_dict
    dsimp only
    rw [hM]
    dsimp only [montoDe]
    repeat' split
    all_goals rfl

/-- C6: the amount coercion of normalization — a currency-formatted
string amount has `$` and `,` stripped before float conversion, so
`total = "$1,200.50"` normalizes to 1200.50; an unparseable value such
as `"garbage"` degrades to 0.0; an absent amount degrades to 0.0; and
in general a truthy string amount yields exactly the
strip-then-parse-else-zero value (normalization itself is a total
function and never raises). -/
theorem normalizacion_monto (oc : OrdenCompraInput) :
    (oc.monto = none → oc.total = some (.str (("$1,200.50").toList)) →
      (oc.to_normalized_dict).monto = 1200.5) ∧
    (oc.monto = none → oc.total = some (.str (("garbage").toList)) →
      (oc.to_normalized_dict).monto = 0) ∧
    (oc.monto = none → oc.total = none → oc.amount = none →
      (oc.to_normalized_dict).monto = 0) ∧
    (∀ s, oc.monto = none → oc.total = some (.str s) → strTruthy s = true →
      (oc.to_normalized_dict).monto = (pyFloat (limpiarMonto s)).getD 0) := by
  refine ⟨?_, ?_, ?_, ?_⟩
  · intro h1 h2
    rw [normalized_monto_eq]
    simp only [pyOrNumStr, h1, h2, numStrTruthy, montoDe]
    with_unfolding_all rfl
  · intro h1 h2
    rw [normalized_monto_eq]
    simp only [pyOrNumStr, h1, h2, numStrTruthy, montoDe]
    with_unfolding_all rfl
  · intro h1 h2 h3
    rw [normalized_monto_eq]
    simp [pyOrNumStr, h1, h2, h3, montoDe]
  · intro s h1 h2 ht
    have hne : s ≠ [] := by
      intro hs
      rw [hs] at ht
      exact absurd ht (by decide)
    rw [normalized_monto_eq]
    simp [pyOrNumStr, h1, h2, numStrTruthy, montoDe, hne]

/-- Witness for C6 at the three concrete amounts. -/
theorem normalizacion_monto_witness :
    (ocMontoFmtW.to_normalized_dict).monto = 1200.5 ∧
    (ocMontoBasuraW.to_normalized_dict).monto = 0 ∧
    (ocVacioW.to_normalized_dict).monto = 0 :=
  ⟨(normalizacion_monto ocMontoFmtW).1 rfl rfl,
   (normalizacion_monto ocMontoBasuraW).2.1 rfl rfl,
   (normalizacion_monto ocVacioW).2.2.1 rfl rfl rfl⟩

-- ======================================================================
-- C9 : the ignored/no-op response of the webhook
-- ======================================================================

/-- C9, counterexample: a submission with an empty uploaded file and
purchase-order field `true` — so neither a usable invoice nor any
purchase order can be obtained from it — is answered with the 500
error response (iterating the truthy non-iterable parse result raises
`TypeError`), not with the ignored/no-op response; the store is
nevertheless unchanged. -/
theorem webhook_ignorado_contraejemplo :
    receiveWebhook (some []) (some (("true").toList)) storeVacioW 17 =
      (.serverError (("TypeError: el objeto no es iterable").toList), storeVacioW) ∧
    (receiveWebhook (some []) (some (("true").toList)) storeVacioW 17).1 ≠
      WebhookResponse.ignored := by
  refine ⟨rfl, by decide⟩

/-- The modelled pipeline is one instance of the abstracted endpoint. -/
theorem receiveWebhook_eq_con :
    receiveWebhook = receiveWebhookCon ocsFinalesResult := rfl

/-- C9 (amended: the no-op guarantee holds whenever the purchase-order
computation completes with no orders and no usable invoice exists; a
truthy non-iterable parse result instead raises, producing the 500
error response — with the store still unchanged).  The purchase-order
computation is quantified over, so the statement covers exactly the
submissions on which the program's own parse phases and item loop
yield no orders (or raise), independently of how much of Python's
literal grammar the modelled fallback parser accepts;
`receiveWebhook_eq_con` ties the abstraction to the modelled
pipeline. -/
theorem webhook_ignorado (ocsDe : Option Str → Except Str (List OCFinal))
    (factura : Option (List Nat)) (ordenes : Option Str)
    (st : Store) (now : Nat) :
    (facturaB64Of factura = none → ocsDe ordenes = .ok [] →
      receiveWebhookCon ocsDe factura ordenes st now = (.ignored, st)) ∧
    (∀ e, ocsDe ordenes = .error e →
      receiveWebhookCon ocsDe factura ordenes st now = (.serverError e, st)) := by
  constructor
  · intro hf ho
    simp [receiveWebhookCon, hf, ho]
  · intro e he
    simp [receiveWebhookCon, he]

/-- Witness for the amended C9, at the modelled pipeline: empty file and
empty purchase-order field (where the model is exact — Python's
`if ordenes_de_compra:` skips all parsing on the empty string) give the
ignored response and leave the store unchanged. -/
theorem webhook_ignorado_witness :
    receiveWebhookCon ocsFinalesResult (some []) (some (("").toList))
      storeVacioW 3 = (.ignored, storeVacioW) :=
  (webhook_ignorado ocsFinalesResult (some []) (some (("").toList))
    storeVacioW 3).1 rfl rfl

-- ======================================================================
-- Store lemmas shared by the batch and lifecycle claims
-- ======================================================================

theorem mem_insertarPorFecha {x r : RegistroWebhook} {l : List RegistroWebhook} :
    x ∈ insertarPorFecha r l ↔ x = r ∨ x ∈ l := by
  induction l with
  | nil => simp [insertarPorFecha]
  | cons y ys ih =>
    by_cases h : r.fecha_recepcion < y.fecha_recepcion
    · simp [insertarPorFecha, h]
    · simp [insertarPorFecha, h, ih]
      tauto

theorem perm_ordenarPorFecha (l : List RegistroWebhook) :
    (ordenarPorFecha l).Perm l := by
  induction l with
  | nil => simp [ordenarPorFecha]
  | cons r rest ih =>
    have hperm : (insertarPorFecha r (ordenarPorFecha rest)).Perm
        (r :: ordenarPorFecha rest) := by
      clear ih
      induction ordenarPorFecha rest with
      | nil => simp [insertarPorFecha]
      | cons y ys ih2 =>
        by_cases h : r.fecha_recepcion < y.fecha_recepcion
        · simp [insertarPorFecha, h]
        · simp only [insertarPorFecha, h, if_false]
          exact (ih2.cons y).trans (List.Perm.swap r y ys)
    exact (hperm.trans (ih.cons r))

theorem mem_ordenarPorFecha {x : RegistroWebhook} {l : List RegistroWebhook} :
    x ∈ ordenarPorFecha l ↔ x ∈ l :=
  (perm_ordenarPorFecha l).mem_iff

theorem mem_pendientes {st : Store} {r : RegistroWebhook} :
    r ∈ obtenerRegistrosPendientes st ↔ r ∈ st.rows ∧ r.procesado = false := by
  simp [obtenerRegistrosPendientes, mem_ordenarPorFecha, List.mem_filter]

theorem pendientes_tras_actualizar {st : Store} {rid : Nat}
    {res : ResultadoValidacion} {now : Nat} {ids : List Nat}
    (h : ∀ row ∈ st.rows, row.procesado = false → row.id ∈ rid :: ids) :
    ∀ row ∈ (actualizarRegistro st rid res now).rows,
      row.procesado = false → row.id ∈ ids := by
  intro row hrow hproc
  rcases List.mem_map.mp hrow with ⟨orig, horigmem, heq⟩
  by_cases hc : orig.id = rid
  · rw [if_pos hc] at heq
    rw [← heq] at hproc
    exact absurd hproc (by simp [aplicarResultado])
  · rw [if_neg hc] at heq
    rw [← heq]
    rcases List.mem_cons.mp (h orig horigmem (by rw [heq]; exact hproc)) with h1 | h2
    · exact absurd h1 hc
    · exact h2

theorem lote_procesa_todo (process : RegistroWebhook → Except Str ResultadoValidacion)
    (now : Nat) :
    ∀ (L : List RegistroWebhook) (st : Store),
      (∀ row ∈ st.rows, row.procesado = false → row.id ∈ L.map (fun p => p.id)) →
      ∀ row ∈ (procesarLote process now L st).2.rows, row.procesado = true := by
  intro L
  induction L with
  | nil =>
    intro st h row hrow
    cases hP : row.procesado with
    | true => rfl
    | false => simpa using h row hrow hP
  | cons r0 rest ih =>
    intro st h row hrow
    cases hpr : process r0 with
    | ok res =>
      simp only [procesarLote, hpr] at hrow
      exact ih (actualizarRegistro st r0.id res now)
        (pendientes_tras_actualizar (by simpa using h)) row hrow
    | error e =>
      simp only [procesarLote, hpr] at hrow
      exact ih (actualizarRegistro st r0.id (resultadoError r0 e) now)
        (pendientes_tras_actualizar (by simpa using h)) row hrow

-- ======================================================================
-- C8 : idempotence of the batch over a fixed store
-- ======================================================================

/-- C8: the batch selects exactly the records with `procesado = false`;
after a run every row of the store is processed, so a second run (with
any collaborator and any clock) selects nothing, returns the empty
outcome sequence and leaves the store unchanged — no record is
processed twice. -/
theorem lote_idempotente (svc : OpenAIServiceModel) (st : Store) (now : Nat)
    (svc2 : OpenAIServiceModel) (now2 : Nat) :
    (∀ r, r ∈ obtenerRegistrosPendientes st ↔ (r ∈ st.rows ∧ r.procesado = false)) ∧
    (∀ row ∈ (validarTodosLosRegistros svc st now).2.rows, row.procesado = true) ∧
    obtenerRegistrosPendientes (validarTodosLosRegistros svc st now).2 = [] ∧
    validarTodosLosRegistros svc2 (validarTodosLosRegistros svc st now).2 now2 =
      ([], (validarTodosLosRegistros svc st now).2) := by
  have hall : ∀ row ∈ (validarTodosLosRegistros svc st now).2.rows,
      row.procesado = true := by
    apply lote_procesa_todo
    intro row hrow hproc
    exact List.mem_map.mpr ⟨row, mem_pendientes.mpr ⟨hrow, hproc⟩, rfl⟩
  have hfil : (validarTodosLosRegistros svc st now).2.rows.filter
      (fun r => !r.procesado) = [] := by
    rw [List.filter_eq_nil_iff]
    intro a ha
    simp [hall a ha]
  have hpend : obtenerRegistrosPendientes (validarTodosLosRegistros svc st now).2 = [] := by
    unfold obtenerRegistrosPendientes
    rw [hfil]
    rfl
  refine ⟨fun r => mem_pendientes, hall, hpend, ?_⟩
  have key : ∀ Y : Store, obtenerRegistrosPendientes Y = [] →
      validarTodosLosRegistros svc2 Y now2 = ([], Y) := by
    intro Y hY
    unfold validarTodosLosRegistros validarLote
    rw [hY]
    rfl
  exact key _ hpend

-- ======================================================================
-- C4 : record-outcome invariant and the single processed transition
-- ======================================================================

theorem aplicarResultado_id (r : RegistroWebhook) (res : ResultadoValidacion)
    (now : Nat) : (aplicarResultado r res now).id = r.id := rfl

theorem actualizar_ids (st : Store) (rid : Nat) (res : ResultadoValidacion)
    (now : Nat) :
    (actualizarRegistro st rid res now).rows.map (fun r => r.id) =
      st.rows.map (fun r => r.id) := by
  show (st.rows.map _).map _ = _
  rw [List.map_map]
  apply List.map_congr_left
  intro a _
  by_cases h : a.id = rid <;> simp [h, aplicarResultado]

theorem procesarLote_ids (process : RegistroWebhook → Except Str ResultadoValidacion)
    (now : Nat) :
    ∀ (L : List RegistroWebhook) (st : Store),
      (procesarLote process now L st).2.rows.map (fun r => r.id) =
        st.rows.map (fun r => r.id) := by
  intro L
  induction L with
  | nil => intro st; rfl
  | cons r0 rest ih =>
    intro st
    cases hpr : process r0 with
    | ok res =>
      simp only [procesarLote, hpr]
      rw [ih, actualizar_ids]
    | error e =>
      simp only [procesarLote, hpr]
      rw [ih, actualizar_ids]

theorem limpios_tras_actualizar {st : Store} (rid : Nat) (res : ResultadoValidacion)
    (now : Nat) (h : storeRegistrosLimpios st) :
    storeRegistrosLimpios (actualizarRegistro st rid res now) := by
  intro row hrow
  rcases List.mem_map.mp hrow with ⟨orig, horigmem, heq⟩
  by_cases hc : orig.id = rid
  · rw [if_pos hc] at heq
    intro hproc
    rw [← heq] at hproc
    exact absurd hproc (by simp [aplicarResultado])
  · rw [if_neg hc] at heq
    rw [← heq]
    exact h orig horigmem

theorem limpios_tras_lote (process : RegistroWebhook → Except Str ResultadoValidacion)
    (now : Nat) :
    ∀ (L : List RegistroWebhook) (st : Store),
      storeRegistrosLimpios st →
      storeRegistrosLimpios (procesarLote process now L st).2 := by
  intro L
  induction L with
  | nil => intro st h; exact h
  | cons r0 rest ih =>
    intro st h
    cases hpr : process r0 with
    | ok res =>
      simp only [procesarLote, hpr]
      exact ih _ (limpios_tras_actualizar _ _ _ h)
    | error e =>
      simp only [procesarLote, hpr]
      exact ih _ (limpios_tras_actualizar _ _ _ h)

theorem fila_tras_actualizar_ne {st : Store} {rid : Nat}
    {res : ResultadoValidacion} {now : Nat} {r : RegistroWebhook}
    (hne : r.id ≠ rid) (hr : r ∈ st.rows) :
    r ∈ (actualizarRegistro st rid res now).rows := by
  apply List.mem_map.mpr
  exact ⟨r, hr, by rw [if_neg hne]⟩

theorem fila_no_tocada_lote (process : RegistroWebhook → Except Str ResultadoValidacion)
    (now : Nat) :
    ∀ (L : List RegistroWebhook) (st : Store) (r : RegistroWebhook),
      (∀ p ∈ L, p.id ≠ r.id) → r ∈ st.rows →
      r ∈ (procesarLote process now L st).2.rows := by
  intro L
  induction L with
  | nil => intro st r _ hr; exact hr
  | cons r0 rest ih =>
    intro st r hL hr
    have hne : r.id ≠ r0.id := fun h => hL r0 (List.mem_cons_self r0 rest) h.symm
    cases hpr : process r0 with
    | ok res =>
      simp only [procesarLote, hpr]
      exact ih _ r (fun p hp => hL p (List.mem_cons_of_mem _ hp))
        (fila_tras_actualizar_ne hne hr)
    | error e =>
      simp only [procesarLote, hpr]
      exact ih _ r (fun p hp => hL p (List.mem_cons_of_mem _ hp))
        (fila_tras_actualizar_ne hne hr)

theorem find_id_nodup {l : List RegistroWebhook} {r : RegistroWebhook}
    (hnd : (l.map (fun p => p.id)).Nodup) (hr : r ∈ l) :
    l.find? (fun p => decide (p.id = r.id)) = some r := by
  induction l with
  | nil => cases hr
  | cons x xs ih =>
    rcases List.mem_cons.mp hr with h1 | h2
    · rw [h1]
      simp
    · have hx : x.id ≠ r.id := by
        intro hxe
        have hmem : r.id ∈ xs.map (fun p => p.id) := List.mem_map.mpr ⟨r, h2, rfl⟩
        rw [← hxe] at hmem
        exact (List.nodup_cons.mp hnd).1 hmem
      simp only [List.find?]
      rw [decide_eq_false hx]
      exact ih (List.nodup_cons.mp hnd).2 h2

theorem rowById_nodup {st : Store} {r : RegistroWebhook}
    (hnd : (st.rows.map (fun p => p.id)).Nodup) (hr : r ∈ st.rows) :
    rowById st r.id = some r :=
  find_id_nodup hnd hr

theorem find_tras_actualizar (l : List RegistroWebhook) (rid : Nat)
    (res : ResultadoValidacion) (now : Nat) :
    (l.map (fun p => if p.id = rid then aplicarResultado p res now else p)).find?
        (fun p => decide (p.id = rid)) =
      (l.find? (fun p => decide (p.id = rid))).map
        (fun p => aplicarResultado p res now) := by
  induction l with
  | nil => rfl
  | cons x xs ih =>
    by_cases hx : x.id = rid
    · simp only [List.map_cons, List.find?, if_pos hx]
      rw [decide_eq_true (show (aplicarResultado x res now).id = rid from hx),
          decide_eq_true hx]
      rfl
    · simp only [List.map_cons, List.find?, if_neg hx]
      rw [decide_eq_false hx]
      exact ih

theorem find_tras_actualizar_ne (l : List RegistroWebhook) (rid i : Nat)
    (res : ResultadoValidacion) (now : Nat) (hne : i ≠ rid) :
    (l.map (fun p => if p.id = rid then aplicarResultado p res now else p)).find?
        (fun p => decide (p.id = i)) =
      l.find? (fun p => decide (p.id = i)) := by
  induction l with
  | nil => rfl
  | cons x xs ih =>
    by_cases hx : x.id = rid
    · have h1 : (aplicarResultado x res now).id ≠ i := by
        rw [aplicarResultado_id, hx]
        exact fun h => hne h.symm
      have h2 : x.id ≠ i := by
        rw [hx]
        exact fun h => hne h.symm
      simp only [List.map_cons, List.find?, if_pos hx]
      rw [decide_eq_false h1, decide_eq_false h2]
      exact ih
    · simp only [List.map_cons, List.find?, if_neg hx]
      by_cases hxi : x.id = i
      · rw [decide_eq_true hxi]
      · rw [decide_eq_false hxi]
        exact ih

theorem rowById_actualizar_eq {st : Store} {r : RegistroWebhook}
    {res : ResultadoValidacion} {now : Nat}
    (h : rowById st r.id = some r) :
    rowById (actualizarRegistro st r.id res now) r.id =
      some (aplicarResultado r res now) := by
  unfold rowById at h ⊢
  show List.find? _ (st.rows.map _) = _
  rw [find_tras_actualizar, h]
  rfl

theorem rowById_actualizar_ne {st : Store} {rid i : Nat}
    {res : ResultadoValidacion} {now : Nat} (hne : i ≠ rid) :
    rowById (actualizarRegistro st rid res now) i = rowById st i := by
  unfold rowById
  show List.find? _ (st.rows.map _) = _
  rw [find_tras_actualizar_ne _ _ _ _ _ hne]

theorem rowById_no_tocado_lote
    (process : RegistroWebhook → Except Str ResultadoValidacion) (now : Nat) :
    ∀ (L : List RegistroWebhook) (st : Store) (i : Nat),
      (∀ p ∈ L, p.id ≠ i) →
      rowById (procesarLote process now L st).2 i = rowById st i := by
  intro L
  induction L with
  | nil => intro st i _; rfl
  | cons r0 rest ih =>
    intro st i hL
    have hne : i ≠ r0.id := fun h => hL r0 (List.mem_cons_self r0 rest) h.symm
    cases hpr : process r0 with
    | ok res =>
      simp only [procesarLote, hpr]
      rw [ih _ i (fun p hp => hL p (List.mem_cons_of_mem _ hp)),
          rowById_actualizar_ne hne]
    | error e =>
      simp only [procesarLote, hpr]
      rw [ih _ i (fun p hp => hL p (List.mem_cons_of_mem _ hp)),
          rowById_actualizar_ne hne]

theorem lote_actualiza_una_vez
    (process : RegistroWebhook → Except Str ResultadoValidacion) (now : Nat) :
    ∀ (L : List RegistroWebhook) (st : Store) (r : RegistroWebhook),
      (L.map (fun p => p.id)).Nodup →
      r.id ∈ L.map (fun p => p.id) →
      (∀ p ∈ L, p.id = r.id → p = r) →
      rowById st r.id = some r →
      ∃ res, rowById (procesarLote process now L st).2 r.id =
        some (aplicarResultado r res now) := by
  intro L
  induction L with
  | nil => intro st r _ hmem; cases hmem
  | cons p0 rest ih =>
    intro st r hnd hmem huniq hrow
    by_cases hid : p0.id = r.id
    · have hp0 : p0 = r := huniq p0 (List.mem_cons_self p0 rest) hid
      subst hp0
      have hnotin : ∀ p ∈ rest, p.id ≠ p0.id := by
        intro p hp he
        have hmm : p0.id ∈ rest.map (fun q => q.id) :=
          List.mem_map.mpr ⟨p, hp, he⟩
        exact (List.nodup_cons.mp hnd).1 hmm
      cases hpr : process p0 with
      | ok res =>
        refine ⟨res, ?_⟩
        simp only [procesarLote, hpr]
        rw [rowById_no_tocado_lote process now rest _ p0.id hnotin,
            rowById_actualizar_eq hrow]
      | error e =>
        refine ⟨resultadoError p0 e, ?_⟩
        simp only [procesarLote, hpr]
        rw [rowById_no_tocado_lote process now rest _ p0.id hnotin,
            rowById_actualizar_eq hrow]
    · have hmem2 : r.id ∈ rest.map (fun p => p.id) := by
        rcases List.mem_cons.mp hmem with h1 | h2
        · exact absurd h1.symm hid
        · exact h2
      have huniq2 : ∀ p ∈ rest, p.id = r.id → p = r :=
        fun p hp => huniq p (List.mem_cons_of_mem _ hp)
      have hne : r.id ≠ p0.id := fun h => hid h.symm
      cases hpr : process p0 with
      | ok res =>
        simp only [procesarLote, hpr]
        exact ih _ r (List.nodup_cons.mp hnd).2 hmem2 huniq2
          (by rw [rowById_actualizar_ne hne]; exact hrow)
      | error e =>
        simp only [procesarLote, hpr]
        exact ih _ r (List.nodup_cons.mp hnd).2 hmem2 huniq2
          (by rw [rowById_actualizar_ne hne]; exact hrow)

theorem pendientes_ids_nodup {st : Store}
    (hnd : (st.rows.map (fun p => p.id)).Nodup) :
    ((obtenerRegistrosPendientes st).map (fun p => p.id)).Nodup := by
  have hfil : ((st.rows.filter (fun r => !r.procesado)).map (fun p => p.id)).Nodup :=
    ((st.rows.filter_sublist (p := fun r => !r.procesado)).map
      (fun p => p.id)).nodup hnd
  have hperm : ((obtenerRegistrosPendientes st).map (fun p => p.id)).Perm
      ((st.rows.filter (fun r => !r.procesado)).map (fun p => p.id)) :=
    (perm_ordenarPorFecha _).map _
  exact hperm.nodup_iff.mpr hfil

/-- C4: the record-outcome invariant and the single processed
transition.  (1) an ingestion operation adds at most one fresh record,
in the clean unprocessed state (`procesado = false`,
`es_anomalia = false`, no anomaly kind, no processing timestamp), so
the invariant holds at creation; (2) the invariant "unprocessed implies
clean outcome" is preserved by every system operation (ingestion or
validation batch); (3) a row already processed is never mutated again
by any operation (append-only outcome); (4) in a batch, every
unprocessed row undergoes exactly one update that — atomically, in the
same write — sets `procesado` together with all outcome fields
(`es_anomalia`, `tipo_anomalia`, `resultado_validacion`,
`datos_factura_json`, `fecha_procesamiento`). -/
theorem ciclo_vida_registros (st : Store) (hids : storeIdsOk st) :
    (∀ f o now, ∀ row ∈ (aplicarOp st (.ingesta f o now)).rows,
        row ∈ st.rows ∨
        (row.procesado = false ∧ row.es_anomalia = false ∧
         row.tipo_anomalia = none ∧ row.fecha_procesamiento = none)) ∧
    (∀ op, storeRegistrosLimpios st → storeRegistrosLimpios (aplicarOp st op)) ∧
    (∀ op, ∀ r ∈ st.rows, r.procesado = true → r ∈ (aplicarOp st op).rows) ∧
    (∀ p now, ∀ r ∈ st.rows, r.procesado = false →
        ∃ res, rowById (aplicarOp st (.lote p now)) r.id =
          some (aplicarResultado r res now)) := by
  have hingesta_mem : ∀ f o now, ∀ row ∈ (aplicarOp st (.ingesta f o now)).rows,
      row ∈ st.rows ∨
      (row.procesado = false ∧ row.es_anomalia = false ∧
       row.tipo_anomalia = none ∧ row.fecha_procesamiento = none) := by
    intro f o now row hrow
    simp only [aplicarOp] at hrow
    unfold receiveWebhook at hrow
    cases hoc : ocsFinalesResult o with
    | error e =>
      rw [hoc] at hrow
      dsimp only at hrow
      exact Or.inl hrow
    | ok ocs =>
      rw [hoc] at hrow
      dsimp only at hrow
      by_cases hempty : (facturaB64Of f).isNone = true ∧ ocs.isEmpty = true
      · rw [if_pos hempty] at hrow
        exact Or.inl hrow
      · rw [if_neg hempty] at hrow
        simp only [guardarRegistroSync] at hrow
        rcases List.mem_append.mp hrow with h1 | h2
        · exact Or.inl h1
        · rw [List.mem_singleton.mp h2]
          exact Or.inr ⟨rfl, rfl, rfl, rfl⟩
  have hingesta_sub : ∀ f o now, ∀ r ∈ st.rows,
      r ∈ (aplicarOp st (.ingesta f o now)).rows := by
    intro f o now r hr
    simp only [aplicarOp]
    unfold receiveWebhook
    cases hoc : ocsFinalesResult o with
    | error e =>
      dsimp only
      exact hr
    | ok ocs =>
      dsimp only
      by_cases hempty : (facturaB64Of f).isNone = true ∧ ocs.isEmpty = true
      · rw [if_pos hempty]
        exact hr
      · rw [if_neg hempty]
        simp only [guardarRegistroSync]
        exact List.mem_append.mpr (Or.inl hr)
  refine ⟨hingesta_mem, ?_, ?_, ?_⟩
  · intro op hlim
    cases op with
    | ingesta f o now =>
      intro row hrow
      rcases hingesta_mem f o now row hrow with h | h
      · exact hlim row h
      · intro _
        exact ⟨h.2.1, h.2.2.1, h.2.2.2⟩
    | lote p now =>
      exact limpios_tras_lote p now _ st hlim
  · intro op r hr hproc
    cases op with
    | ingesta f o now => exact hingesta_sub f o now r hr
    | lote p now =>
      apply fila_no_tocada_lote p now _ st r ?_ hr
      intro q hq he
      have hqrows : q ∈ st.rows := (mem_pendientes.mp hq).1
      have hqe : q = r := List.inj_on_of_nodup_map hids.1 hqrows hr he
      have hqp : q.procesado = false := (mem_pendientes.mp hq).2
      rw [hqe, hproc] at hqp
      cases hqp
  · intro p now r hr hproc
    apply lote_actualiza_una_vez p now (obtenerRegistrosPendientes st) st r
    · exact pendientes_ids_nodup hids.1
    · exact List.mem_map.mpr ⟨r, mem_pendientes.mpr ⟨hr, hproc⟩, rfl⟩
    · intro q hq he
      exact List.inj_on_of_nodup_map hids.1 (mem_pendientes.mp hq).1 hr he
    · exact rowById_nodup hids.1 hr

/-- Witness for C4 on a one-row store with an unprocessed record. -/
theorem ciclo_vida_registros_witness :
    ∃ res, rowById (aplicarOp storeUnoW (.lote procesoFallaW 5)) regSinNadaW.id =
      some (aplicarResultado regSinNadaW res 5) :=
  (ciclo_vida_registros storeUnoW ⟨by decide, by decide⟩).2.2.2 procesoFallaW 5
    regSinNadaW (List.mem_singleton.mpr rfl) rfl

-- ======================================================================
-- C7 infrastructure: whitespace and suffix lemmas for the JSON parser
-- ======================================================================

theorem jws_cases {c : Char} (h : isJsonWs c = true) :
    c = ' ' ∨ c = '\t' ∨ c = '\n' ∨ c = '\r' := by
  simp only [isJsonWs, Bool.or_eq_true, decide_eq_true_eq] at h
  tauto

theorem dropWhile_append_all {p : Char → Bool} {a : Str} (b : Str)
    (h : ∀ c ∈ a, p c = true) :
    (a ++ b).dropWhile p = b.dropWhile p := by
  induction a with
  | nil => rfl
  | cons x xs ih =>
    simp only [List.cons_append, List.dropWhile_cons, h x (List.mem_cons_self x xs)]
    exact ih (fun c hc => h c (List.mem_cons_of_mem _ hc))

theorem dropWhile_cons_false {p : Char → Bool} {c : Char} (l : Str)
    (h : p c = false) : (c :: l).dropWhile p = c :: l := by
  simp [List.dropWhile_cons, h]

theorem skipWs_all_jws {w : Str} (h : ∀ c ∈ w, isJsonWs c = true) :
    skipWs w = [] := by
  induction w with
  | nil => rfl
  | cons x xs ih =>
    simp only [skipWs, List.dropWhile_cons, h x (List.mem_cons_self x xs)]
    exact ih (fun c hc => h c (List.mem_cons_of_mem _ hc))

theorem all_jws_of_skipWs_nil {w : Str} (h : skipWs w = []) :
    ∀ c ∈ w, isJsonWs c = true :=
  List.dropWhile_eq_nil_iff.mp h

/-- A JSON-whitespace character starts no JSON value. -/
theorem parseJValue_ws_head (f : Nat) (c : Char) (rest : Str)
    (h : isJsonWs c = true) : parseJValue f (c :: rest) = none := by
  cases f with
  | zero => rfl
  | succ f =>
    rcases jws_cases h with h1 | h1 | h1 | h1 <;>
      subst h1 <;>
      simp [parseJValue, parseNumber, parseIntDigits, negSplit]

/-- A string body made only of whitespace never closes. -/
theorem parseJStringBody_all_jws (f : Nat) :
    ∀ w : Str, (∀ c ∈ w, isJsonWs c = true) → parseJStringBody f w = none := by
  induction f with
  | zero => intro w _; rfl
  | succ f ih =>
    intro w hw
    cases w with
    | nil => rfl
    | cons c w2 =>
      have hc := hw c (List.mem_cons_self c w2)
      rcases jws_cases hc with h1 | h1 | h1 | h1 <;>
        subst h1 <;>
        simp [parseJStringBody, ih w2 (fun d hd => hw d (List.mem_cons_of_mem _ hd))]

theorem parseHex4_suffix {l r : Str} {n : Nat} (h : parseHex4 l = some (n, r)) :
    r.IsSuffix l := by
  unfold parseHex4 at h
  split at h
  · split at h
    · cases h
      exact (List.suffix_cons _ _).trans
        ((List.suffix_cons _ _).trans
          ((List.suffix_cons _ _).trans (List.suffix_cons _ _)))
    · cases h
  · cases h

theorem parseIntDigits_suffix {l ip r : Str} (h : parseIntDigits l = some (ip, r)) :
    r.IsSuffix l := by
  cases l with
  | nil => cases h
  | cons c t =>
    unfold parseIntDigits at h
    dsimp only at h
    by_cases h0 : c = '0'
    · rw [if_pos h0] at h
      cases h
      exact List.suffix_cons _ _
    · rw [if_neg h0] at h
      by_cases hd : c.isDigit
      · rw [if_pos hd] at h
        cases h
        exact (List.dropWhile_suffix _).trans (List.suffix_cons _ _)
      · rw [if_neg hd] at h
        cases h

theorem parseFracDigits_not_dot {c : Char} {t : Str} (h : ¬ c = '.') :
    parseFracDigits (c :: t) = some ([], c :: t) := by
  unfold parseFracDigits
  dsimp only
  rw [if_neg h]

theorem parseFracDigits_suffix {l fp r : Str} (h : parseFracDigits l = some (fp, r)) :
    r.IsSuffix l := by
  cases l with
  | nil =>
    cases h
    exact List.suffix_refl _
  | cons c t =>
    unfold parseFracDigits at h
    dsimp only at h
    by_cases hc : c = '.'
    · rw [if_pos hc] at h
      by_cases he : (t.takeWhile Char.isDigit).isEmpty
      · rw [if_pos he] at h
        cases h
      · rw [if_neg he] at h
        cases h
        exact (List.dropWhile_suffix _).trans (List.suffix_cons _ _)
    · rw [if_neg hc] at h
      cases h
      exact List.suffix_refl _

theorem negSplit_other {c : Char} {t : Str} (h : ¬ c = '-') :
    negSplit (c :: t) = (false, c :: t) := by
  unfold negSplit
  dsimp only
  rw [if_neg h]

theorem negSplit_suffix (l : Str) : (negSplit l).2.IsSuffix l := by
  cases l with
  | nil => exact List.suffix_refl _
  | cons c t =>
    unfold negSplit
    dsimp only
    by_cases hc : c = '-'
    · rw [if_pos hc]
      exact List.suffix_cons _ _
    · rw [if_neg hc]

theorem signSplit_other {c : Char} {t : Str} (h1 : ¬ c = '-') (h2 : ¬ c = '+') :
    signSplit (c :: t) = (false, c :: t) := by
  unfold signSplit
  dsimp only
  rw [if_neg h1, if_neg h2]

theorem signSplit_suffix (l : Str) : (signSplit l).2.IsSuffix l := by
  cases l with
  | nil => exact List.suffix_refl _
  | cons c t =>
    unfold signSplit
    dsimp only
    by_cases h1 : c = '-'
    · rw [if_pos h1]
      exact List.suffix_cons _ _
    · rw [if_neg h1]
      by_cases h2 : c = '+'
      · rw [if_pos h2]
        exact List.suffix_cons _ _
      · rw [if_neg h2]

theorem parseExpDigits_not_e {c : Char} {t : Str} (h1 : ¬ c = 'e') (h2 : ¬ c = 'E') :
    parseExpDigits (c :: t) = some (0, c :: t) := by
  unfold parseExpDigits
  dsimp only
  rw [if_neg (by tauto)]

theorem parseExpDigits_suffix {l : Str} {e : Int} {r : Str}
    (h : parseExpDigits l = some (e, r)) : r.IsSuffix l := by
  cases l with
  | nil =>
    cases h
    exact List.suffix_refl _
  | cons c t =>
    unfold parseExpDigits at h
    dsimp only at h
    by_cases hc : c = 'e' ∨ c = 'E'
    · rw [if_pos hc] at h
      by_cases hemp : ((signSplit t).2.takeWhile Char.isDigit).isEmpty
      · rw [if_pos hemp] at h
        cases h
      · rw [if_neg hemp] at h
        cases h
        exact ((List.dropWhile_suffix _).trans (signSplit_suffix t)).trans
          (List.suffix_cons c t)
    · rw [if_neg hc] at h
      cases h
      exact List.suffix_refl _

theorem parseNumber_suffix {l : Str} {q : ℚ} {r : Str}
    (h : parseNumber l = some (q, r)) : r.IsSuffix l := by
  unfold parseNumber at h
  dsimp only at h
  rcases hip : parseIntDigits (negSplit l).2 with _ | ⟨ip, l2⟩ <;>
    rw [hip] at h <;> dsimp only at h
  · cases h
  rcases hfp : parseFracDigits l2 with _ | ⟨fp, l3⟩ <;>
    rw [hfp] at h <;> dsimp only at h
  · cases h
  rcases hep : parseExpDigits l3 with _ | ⟨e, l4⟩ <;>
    rw [hep] at h <;> dsimp only at h
  · cases h
  cases h
  exact ((parseExpDigits_suffix hep).trans
    ((parseFracDigits_suffix hfp).trans
      ((parseIntDigits_suffix hip).trans (negSplit_suffix l))))

theorem skipWs_suffix (l : Str) : (skipWs l).IsSuffix l :=
  List.dropWhile_suffix _

theorem surrLook_join_suffix {t : Str} {n2 : Nat} {t5 : Str}
    (h : surrLook t = .join n2 t5) : t5.IsSuffix t := by
  match t with
  | [] => simp [surrLook] at h
  | [a] => simp [surrLook] at h
  | a :: b :: t4 =>
    simp only [surrLook] at h
    by_cases hab : a = '\\' ∧ b = 'u'
    · rw [if_pos hab] at h
      rcases hh : parseHex4 t4 with _ | ⟨n0, t0⟩ <;> rw [hh] at h <;> dsimp only at h
      · cases h
      · by_cases hlo : 0xDC00 ≤ n0 ∧ n0 ≤ 0xDFFF
        · rw [if_pos hlo] at h
          cases h
          exact (parseHex4_suffix hh).trans
            ((List.suffix_cons b t4).trans (List.suffix_cons a (b :: t4)))
        · rw [if_neg hlo] at h; cases h
    · rw [if_neg hab] at h; cases h

/-- Whatever any of the four mutual parsers leaves unconsumed is a
suffix of its input. -/
theorem parseJ_suffix : ∀ f : Nat,
    (∀ l v r, parseJValue f l = some (v, r) → r.IsSuffix l) ∧
    (∀ l vs r, parseJElems f l = some (vs, r) → r.IsSuffix l) ∧
    (∀ acc l ms r, parseJMembers f acc l = some (ms, r) → r.IsSuffix l) ∧
    (∀ l s r, parseJStringBody f l = some (s, r) → r.IsSuffix l) := by
  intro f
  induction f with
  | zero =>
    exact ⟨fun l v r h => by simp [parseJValue] at h,
           fun l vs r h => by simp [parseJElems] at h,
           fun acc l ms r h => by simp [parseJMembers] at h,
           fun l s r h => by simp [parseJStringBody] at h⟩
  | succ f ih =>
    obtain ⟨ihV, ihE, ihM, ihS⟩ := ih
    refine ⟨?_, ?_, ?_, ?_⟩
    · -- parseJValue
      intro l v r h
      rcases l with _ | ⟨c, t⟩
      · simp [parseJValue] at h
      · simp only [parseJValue] at h
        have hct : t.IsSuffix (c :: t) := List.suffix_cons c t
        by_cases hq : c = '"'
        · rw [if_pos hq] at h
          rcases hsb : parseJStringBody f t with _ | ⟨s, r2⟩ <;> rw [hsb] at h <;>
            dsimp only at h
          · cases h
          · cases h
            exact (ihS _ _ _ hsb).trans hct
        · rw [if_neg hq] at h
          by_cases ha : c = '['
          · rw [if_pos ha] at h
            rcases hsw : skipWs t with _ | ⟨c2, t2⟩ <;> rw [hsw] at h <;> dsimp only at h
            · cases h
            · have hsub : (c2 :: t2).IsSuffix (c :: t) := by
                rw [← hsw]; exact (skipWs_suffix t).trans hct
              by_cases h2 : c2 = ']'
              · rw [if_pos h2] at h
                cases h
                exact (List.suffix_cons c2 r).trans hsub
              · rw [if_neg h2] at h
                rcases he : parseJElems f (c2 :: t2) with _ | ⟨vs, r2⟩ <;>
                  rw [he] at h <;> dsimp only at h
                · cases h
                · cases h
                  exact (ihE _ _ _ he).trans hsub
          · rw [if_neg ha] at h
            by_cases ho : c = '{'
            · rw [if_pos ho] at h
              rcases hsw : skipWs t with _ | ⟨c2, t2⟩ <;> rw [hsw] at h <;> dsimp only at h
              · cases h
              · have hsub : (c2 :: t2).IsSuffix (c :: t) := by
                  rw [← hsw]; exact (skipWs_suffix t).trans hct
                by_cases h2 : c2 = '}'
                · rw [if_pos h2] at h
                  cases h
                  exact (List.suffix_cons c2 r).trans hsub
                · rw [if_neg h2] at h
                  rcases hm : parseJMembers f [] (c2 :: t2) with _ | ⟨ms, r2⟩ <;>
                    rw [hm] at h <;> dsimp only at h
                  · cases h
                  · cases h
                    exact (ihM _ _ _ _ hm).trans hsub
            · rw [if_neg ho] at h
              by_cases ht' : c = 't'
              · rw [if_pos ht'] at h
                by_cases hp : (("rue").toList).isPrefixOf t = true
                · rw [if_pos hp] at h
                  cases h
                  exact (List.drop_suffix 3 t).trans hct
                · rw [if_neg hp] at h; cases h
              · rw [if_neg ht'] at h
                by_cases hf' : c = 'f'
                · rw [if_pos hf'] at h
                  by_cases hp : (("alse").toList).isPrefixOf t = true
                  · rw [if_pos hp] at h
                    cases h
                    exact (List.drop_suffix 4 t).trans hct
                  · rw [if_neg hp] at h; cases h
                · rw [if_neg hf'] at h
                  by_cases hn' : c = 'n'
                  · rw [if_pos hn'] at h
                    by_cases hp : (("ull").toList).isPrefixOf t = true
                    · rw [if_pos hp] at h
                      cases h
                      exact (List.drop_suffix 3 t).trans hct
                    · rw [if_neg hp] at h; cases h
                  · rw [if_neg hn'] at h
                    rcases hnum : parseNumber (c :: t) with _ | ⟨q0, r2⟩ <;>
                      rw [hnum] at h <;> dsimp only at h
                    · cases h
                    · cases h
                      exact parseNumber_suffix hnum
    · -- parseJElems
      intro l vs r h
      simp only [parseJElems] at h
      rcases hv : parseJValue f l with _ | ⟨v0, r0⟩ <;> rw [hv] at h <;> dsimp only at h
      · cases h
      · have h0 : r0.IsSuffix l := ihV _ _ _ hv
        rcases hsw : skipWs r0 with _ | ⟨c2, r2⟩ <;> rw [hsw] at h <;> dsimp only at h
        · cases h
        · have h1 : (c2 :: r2).IsSuffix l := by
            rw [← hsw]; exact (skipWs_suffix r0).trans h0
          by_cases hc : c2 = ','
          · rw [if_pos hc] at h
            rcases he : parseJElems f (skipWs r2) with _ | ⟨vs0, r3⟩ <;>
              rw [he] at h <;> dsimp only at h
            · cases h
            · cases h
              exact (ihE _ _ _ he).trans
                ((skipWs_suffix r2).trans ((List.suffix_cons c2 r2).trans h1))
          · rw [if_neg hc] at h
            by_cases hb : c2 = ']'
            · rw [if_pos hb] at h
              cases h
              exact (List.suffix_cons c2 r).trans h1
            · rw [if_neg hb] at h; cases h
    · -- parseJMembers
      intro acc l ms r h
      rcases l with _ | ⟨c, t⟩
      · simp [parseJMembers] at h
      · simp only [parseJMembers] at h
        by_cases hq : c = '"'
        · rw [if_pos hq] at h
          rcases hk : parseJStringBody f t with _ | ⟨k, r0⟩ <;> rw [hk] at h <;>
            dsimp only at h
          · cases h
          · have h0 : r0.IsSuffix (c :: t) := (ihS _ _ _ hk).trans (List.suffix_cons c t)
            rcases hs1 : skipWs r0 with _ | ⟨c2, r2⟩ <;> rw [hs1] at h <;> dsimp only at h
            · cases h
            · have h1 : (c2 :: r2).IsSuffix (c :: t) := by
                rw [← hs1]; exact (skipWs_suffix r0).trans h0
              by_cases hc2 : c2 = ':'
              · rw [if_pos hc2] at h
                rcases hv : parseJValue f (skipWs r2) with _ | ⟨v0, r3⟩ <;>
                  rw [hv] at h <;> dsimp only at h
                · cases h
                · have h2 : r3.IsSuffix (c :: t) := (ihV _ _ _ hv).trans
                    ((skipWs_suffix r2).trans ((List.suffix_cons c2 r2).trans h1))
                  rcases hs2 : skipWs r3 with _ | ⟨c3, r4⟩ <;> rw [hs2] at h <;>
                    dsimp only at h
                  · cases h
                  · have h3 : (c3 :: r4).IsSuffix (c :: t) := by
                      rw [← hs2]; exact (skipWs_suffix r3).trans h2
                    by_cases hc3 : c3 = ','
                    · rw [if_pos hc3] at h
                      exact (ihM _ _ _ _ h).trans
                        ((skipWs_suffix r4).trans ((List.suffix_cons c3 r4).trans h3))
                    · rw [if_neg hc3] at h
                      by_cases hb : c3 = '}'
                      · rw [if_pos hb] at h
                        cases h
                        exact (List.suffix_cons c3 r).trans h3
                      · rw [if_neg hb] at h; cases h
              · rw [if_neg hc2] at h; cases h
        · rw [if_neg hq] at h; cases h
    · -- parseJStringBody
      intro l s r h
      rcases l with _ | ⟨c, t⟩
      · simp [parseJStringBody] at h
      · simp only [parseJStringBody] at h
        have hct : t.IsSuffix (c :: t) := List.suffix_cons c t
        by_cases hq : c = '"'
        · rw [if_pos hq] at h
          cases h
          exact hct
        · rw [if_neg hq] at h
          by_cases hbs : c = '\\'
          · rw [if_pos hbs] at h
            rcases t with _ | ⟨e, t2⟩
            · dsimp only at h; cases h
            · dsimp only at h
              have ht2 : t2.IsSuffix (c :: e :: t2) :=
                (List.suffix_cons e t2).trans (List.suffix_cons c (e :: t2))
              by_cases he : e = 'u'
              · rw [if_pos he] at h
                rcases hh : parseHex4 t2 with _ | ⟨n, t3⟩ <;> rw [hh] at h <;>
                  dsimp only at h
                · cases h
                · have ht3 : t3.IsSuffix (c :: e :: t2) := (parseHex4_suffix hh).trans ht2
                  by_cases hsr : 0xD800 ≤ n ∧ n ≤ 0xDBFF
                  · rw [if_pos hsr] at h
                    rcases hl : surrLook t3 with ⟨n2, t5⟩ | _ | _ <;> rw [hl] at h <;>
                      dsimp only at h
                    · rcases hb : parseJStringBody f t5 with _ | ⟨s0, rb⟩ <;>
                        rw [hb] at h <;> dsimp only at h
                      · cases h
                      · cases h
                        exact (ihS _ _ _ hb).trans ((surrLook_join_suffix hl).trans ht3)
                    · cases h
                    · rcases hb : parseJStringBody f t3 with _ | ⟨s0, rb⟩ <;>
                        rw [hb] at h <;> dsimp only at h
                      · cases h
                      · cases h
                        exact (ihS _ _ _ hb).trans ht3
                  · rw [if_neg hsr] at h
                    rcases hb : parseJStringBody f t3 with _ | ⟨s0, rb⟩ <;>
                      rw [hb] at h <;> dsimp only at h
                    · cases h
                    · cases h
                      exact (ihS _ _ _ hb).trans ht3
              · rw [if_neg he] at h
                rcases hse : simpleEscape e with _ | ch <;> rw [hse] at h <;>
                  dsimp only at h
                · cases h
                · rcases hb : parseJStringBody f t2 with _ | ⟨s0, rb⟩ <;>
                    rw [hb] at h <;> dsimp only at h
                  · cases h
                  · cases h
                    exact (ihS _ _ _ hb).trans ht2
          · rw [if_neg hbs] at h
            by_cases hctl : c.toNat < 0x20
            · rw [if_pos hctl] at h; cases h
            · rw [if_neg hctl] at h
              rcases hb : parseJStringBody f t with _ | ⟨s0, rb⟩ <;> rw [hb] at h <;>
                dsimp only at h
              · cases h
              · cases h
                exact (ihS _ _ _ hb).trans hct

theorem jws_ne {c d : Char} (h : isJsonWs c = true) (hd : isJsonWs d = false) :
    c ≠ d := by
  intro he
  rw [he, hd] at h
  cases h

theorem jws_not_digit {c : Char} (h : isJsonWs c = true) : c.isDigit = false := by
  rcases jws_cases h with rfl | rfl | rfl | rfl <;> decide

theorem jws_hexVal {c : Char} (h : isJsonWs c = true) : hexVal c = none := by
  rcases jws_cases h with rfl | rfl | rfl | rfl <;> decide

theorem jws_simpleEscape {c : Char} (h : isJsonWs c = true) : simpleEscape c = none := by
  rcases jws_cases h with rfl | rfl | rfl | rfl <;> decide

theorem parseJValue_nil : ∀ f, parseJValue f [] = none := by
  intro f; cases f <;> rfl

theorem parseJElems_nil : ∀ f, parseJElems f [] = none := by
  intro f
  cases f with
  | zero => rfl
  | succ f => simp [parseJElems, parseJValue_nil]

theorem parseJMembers_nil : ∀ f acc, parseJMembers f acc [] = none := by
  intro f acc; cases f <;> rfl

theorem takeWhile_append_not {p : Char → Bool} {w : Str}
    (hw : ∀ c ∈ w, p c = false) :
    ∀ x : Str, (x ++ w).takeWhile p = x.takeWhile p := by
  intro x
  induction x with
  | nil =>
    cases w with
    | nil => rfl
    | cons c t => simp [List.takeWhile_cons, hw c (List.mem_cons_self c t)]
  | cons c t ih =>
    simp only [List.cons_append, List.takeWhile_cons]
    cases p c <;> simp [ih]

theorem dropWhile_append_not {p : Char → Bool} {w : Str}
    (hw : ∀ c ∈ w, p c = false) :
    ∀ x : Str, (x ++ w).dropWhile p = x.dropWhile p ++ w := by
  intro x
  induction x with
  | nil =>
    cases w with
    | nil => rfl
    | cons c t => simp [List.dropWhile_cons, hw c (List.mem_cons_self c t)]
  | cons c t ih =>
    simp only [List.cons_append, List.dropWhile_cons]
    cases p c <;> simp [ih]

theorem skipWs_append_of_ne : ∀ x : Str, skipWs x ≠ [] →
    ∀ w, skipWs (x ++ w) = skipWs x ++ w := by
  intro x
  induction x with
  | nil => intro h; exact absurd rfl h
  | cons c t ih =>
    intro h w
    by_cases hc : isJsonWs c = true
    · have h1 : skipWs (c :: t) = skipWs t := by
        simp [skipWs, List.dropWhile_cons, hc]
      rw [h1] at h
      have h2 : skipWs ((c :: t) ++ w) = skipWs (t ++ w) := by
        simp [skipWs, List.dropWhile_cons, hc]
      rw [h2, ih h w, h1]
    · have hc' : isJsonWs c = false := by
        revert hc; cases isJsonWs c <;> simp
      simp [skipWs, List.cons_append, List.dropWhile_cons, hc']

theorem skipWs_append_jws_nil {x w : Str} (hx : skipWs x = [])
    (hw : ∀ c ∈ w, isJsonWs c = true) : skipWs (x ++ w) = [] := by
  have hall := all_jws_of_skipWs_nil hx
  unfold skipWs
  rw [dropWhile_append_all w hall]
  exact skipWs_all_jws hw

theorem suffix_append_cancel {x l w : Str} (h : (x ++ w).IsSuffix (l ++ w)) :
    x.IsSuffix l := by
  obtain ⟨q, hq⟩ := h
  exact ⟨q, List.append_cancel_right
    (show (q ++ x) ++ w = l ++ w by rw [List.append_assoc]; exact hq)⟩

theorem parseHex4_ws_head {a : Char} (t : Str) (h : isJsonWs a = true) :
    parseHex4 (a :: t) = none := by
  rcases t with _ | ⟨b, _ | ⟨c, _ | ⟨d, r⟩⟩⟩ <;> simp [parseHex4, jws_hexVal h]

theorem parseHex4_append_eq {w : Str} (hw : ∀ c ∈ w, isJsonWs c = true) :
    ∀ x : Str, parseHex4 (x ++ w) =
      match parseHex4 x with
      | some p => some (p.1, p.2 ++ w)
      | none => none := by
  intro x
  rcases x with _ | ⟨a, _ | ⟨b, _ | ⟨c, _ | ⟨d, r⟩⟩⟩⟩
  · cases w with
    | nil => rfl
    | cons c t =>
      rw [List.nil_append, parseHex4_ws_head t (hw c (List.mem_cons_self c t))]
      rfl
  · rcases w with _ | ⟨w0, _ | ⟨w1, _ | ⟨w2, wr⟩⟩⟩
    · simp [parseHex4]
    · simp [parseHex4]
    · simp [parseHex4]
    · simp [parseHex4, jws_hexVal (hw w0 (by simp))]
  · rcases w with _ | ⟨w0, _ | ⟨w1, wr⟩⟩
    · simp [parseHex4]
    · simp [parseHex4]
    · simp [parseHex4, jws_hexVal (hw w0 (by simp))]
  · rcases w with _ | ⟨w0, wr⟩
    · simp [parseHex4]
    · simp [parseHex4, jws_hexVal (hw w0 (by simp))]
  · show parseHex4 (a :: b :: c :: d :: (r ++ w)) = _
    simp only [parseHex4]
    cases hexVal a <;> cases hexVal b <;> cases hexVal c <;> cases hexVal d <;> rfl

theorem surrLook_join_shape {u : Str} {n2 : Nat} {t5 : Str}
    (h : surrLook u = .join n2 t5) :
    ∃ t4, u = '\\' :: 'u' :: t4 ∧ parseHex4 t4 = some (n2, t5) ∧
      0xDC00 ≤ n2 ∧ n2 ≤ 0xDFFF := by
  match u with
  | [] => simp [surrLook] at h
  | [a] => simp [surrLook] at h
  | a :: b :: t4 =>
    simp only [surrLook] at h
    by_cases hab : a = '\\' ∧ b = 'u'
    · rw [if_pos hab] at h
      obtain ⟨ha, hb⟩ := hab
      subst ha
      subst hb
      rcases hh : parseHex4 t4 with _ | ⟨n0, t0⟩ <;> rw [hh] at h <;> dsimp only at h
      · cases h
      · by_cases hlo : 0xDC00 ≤ n0 ∧ n0 ≤ 0xDFFF
        · rw [if_pos hlo] at h
          cases h
          exact ⟨t4, rfl, hh, hlo⟩
        · rw [if_neg hlo] at h; cases h
    · rw [if_neg hab] at h; cases h

theorem surrLook_bad_shape {u : Str} (h : surrLook u = .bad) :
    ∃ t4, u = '\\' :: 'u' :: t4 ∧ parseHex4 t4 = none := by
  match u with
  | [] => simp [surrLook] at h
  | [a] => simp [surrLook] at h
  | a :: b :: t4 =>
    simp only [surrLook] at h
    by_cases hab : a = '\\' ∧ b = 'u'
    · rw [if_pos hab] at h
      obtain ⟨ha, hb⟩ := hab
      subst ha
      subst hb
      rcases hh : parseHex4 t4 with _ | ⟨n0, t0⟩ <;> rw [hh] at h <;> dsimp only at h
      · exact ⟨t4, rfl, hh⟩
      · by_cases hlo : 0xDC00 ≤ n0 ∧ n0 ≤ 0xDFFF
        · rw [if_pos hlo] at h; cases h
        · rw [if_neg hlo] at h; cases h
    · rw [if_neg hab] at h; cases h

theorem surrLook_join_intro {t4 : Str} {n2 : Nat} {t5 : Str}
    (hh : parseHex4 t4 = some (n2, t5)) (hlo : 0xDC00 ≤ n2 ∧ n2 ≤ 0xDFFF) :
    surrLook ('\\' :: 'u' :: t4) = .join n2 t5 := by
  simp [surrLook, hh, hlo]

theorem surrLook_bad_intro {t4 : Str} (hh : parseHex4 t4 = none) :
    surrLook ('\\' :: 'u' :: t4) = .bad := by
  simp [surrLook, hh]

theorem negSplit_append {w : Str} (hw : ∀ c ∈ w, isJsonWs c = true) :
    ∀ x : Str, negSplit (x ++ w) = ((negSplit x).1, (negSplit x).2 ++ w) := by
  intro x
  rcases x with _ | ⟨c, t⟩
  · cases w with
    | nil => rfl
    | cons c t =>
      have hc : ¬ c = '-' :=
        jws_ne (hw c (List.mem_cons_self c t)) (by decide)
      simp [negSplit, hc]
  · by_cases hc : c = '-'
    · simp [negSplit, hc]
    · simp [negSplit, hc]

theorem signSplit_append {w : Str} (hw : ∀ c ∈ w, isJsonWs c = true) :
    ∀ x : Str, signSplit (x ++ w) = ((signSplit x).1, (signSplit x).2 ++ w) := by
  intro x
  rcases x with _ | ⟨c, t⟩
  · cases w with
    | nil => rfl
    | cons c t =>
      have hm : ¬ c = '-' :=
        jws_ne (hw c (List.mem_cons_self c t)) (by decide)
      have hp : ¬ c = '+' :=
        jws_ne (hw c (List.mem_cons_self c t)) (by decide)
      simp [signSplit, hm, hp]
  · by_cases hm : c = '-'
    · simp [signSplit, hm]
    · by_cases hp : c = '+'
      · simp [signSplit, hm, hp]
      · simp [signSplit, hm, hp]

theorem parseIntDigits_append {w : Str} (hw : ∀ c ∈ w, isJsonWs c = true) :
    ∀ x : Str, parseIntDigits (x ++ w) =
      match parseIntDigits x with
      | some p => some (p.1, p.2 ++ w)
      | none => none := by
  have hdig : ∀ c ∈ w, c.isDigit = false := fun c hc => jws_not_digit (hw c hc)
  intro x
  rcases x with _ | ⟨c, t⟩
  · cases w with
    | nil => rfl
    | cons c t =>
      have h0 : ¬ c = '0' :=
        jws_ne (hw c (List.mem_cons_self c t)) (by decide)
      have hd : c.isDigit = false := jws_not_digit (hw c (List.mem_cons_self c t))
      simp [parseIntDigits, h0, hd]
  · by_cases h0 : c = '0'
    · simp [parseIntDigits, h0]
    · by_cases hd : c.isDigit = true
      · simp [parseIntDigits, h0, hd, takeWhile_append_not hdig,
          dropWhile_append_not hdig]
      · simp [parseIntDigits, h0, hd]

theorem parseFracDigits_append {w : Str} (hw : ∀ c ∈ w, isJsonWs c = true) :
    ∀ x : Str, parseFracDigits (x ++ w) =
      match parseFracDigits x with
      | some p => some (p.1, p.2 ++ w)
      | none => none := by
  have hdig : ∀ c ∈ w, c.isDigit = false := fun c hc => jws_not_digit (hw c hc)
  intro x
  rcases x with _ | ⟨c, t⟩
  · cases w with
    | nil => rfl
    | cons c t =>
      have hdot : ¬ c = '.' :=
        jws_ne (hw c (List.mem_cons_self c t)) (by decide)
      simp [parseFracDigits, hdot]
  · by_cases hdot : c = '.'
    · by_cases hemp : (t.takeWhile Char.isDigit).isEmpty = true
      · simp [parseFracDigits, hdot, takeWhile_append_not hdig, hemp]
      · simp [parseFracDigits, hdot, takeWhile_append_not hdig,
          dropWhile_append_not hdig, hemp]
    · simp [parseFracDigits, hdot]

theorem parseExpDigits_append {w : Str} (hw : ∀ c ∈ w, isJsonWs c = true) :
    ∀ x : Str, parseExpDigits (x ++ w) =
      match parseExpDigits x with
      | some p => some (p.1, p.2 ++ w)
      | none => none := by
  have hdig : ∀ c ∈ w, c.isDigit = false := fun c hc => jws_not_digit (hw c hc)
  intro x
  rcases x with _ | ⟨c, t⟩
  · cases w with
    | nil => rfl
    | cons c t =>
      have he : ¬ c = 'e' :=
        jws_ne (hw c (List.mem_cons_self c t)) (by decide)
      have hE : ¬ c = 'E' :=
        jws_ne (hw c (List.mem_cons_self c t)) (by decide)
      simp [parseExpDigits, he, hE]
  · by_cases he : c = 'e' ∨ c = 'E'
    · by_cases hemp : (((signSplit t).2).takeWhile Char.isDigit).isEmpty = true
      · simp [parseExpDigits, he, signSplit_append hw,
          takeWhile_append_not hdig, hemp]
      · simp [parseExpDigits, he, signSplit_append hw,
          takeWhile_append_not hdig, dropWhile_append_not hdig, hemp]
    · simp [parseExpDigits, he]

theorem parseNumber_append {w : Str} (hw : ∀ c ∈ w, isJsonWs c = true) :
    ∀ x : Str, parseNumber (x ++ w) =
      match parseNumber x with
      | some p => some (p.1, p.2 ++ w)
      | none => none := by
  intro x
  simp only [parseNumber, negSplit_append hw]
  rw [parseIntDigits_append hw]
  rcases hip : parseIntDigits (negSplit x).2 with _ | ⟨ip, l2⟩
  · rfl
  · dsimp only
    rw [parseFracDigits_append hw]
    rcases hfp : parseFracDigits l2 with _ | ⟨fp, l3⟩
    · rfl
    · dsimp only
      rw [parseExpDigits_append hw]
      rcases hep : parseExpDigits l3 with _ | ⟨e, l4⟩
      · rfl
      · rfl

theorem parseJ_strip : ∀ f : Nat,
    (∀ w, (∀ c ∈ w, isJsonWs c = true) → ∀ l v r,
      parseJValue f (l ++ w) = some (v, r ++ w) →
      ∀ g, 2 * l.length + 2 ≤ g → parseJValue g l = some (v, r)) ∧
    (∀ w, (∀ c ∈ w, isJsonWs c = true) → ∀ l vs r,
      parseJElems f (l ++ w) = some (vs, r ++ w) →
      ∀ g, 2 * l.length + 3 ≤ g → parseJElems g l = some (vs, r)) ∧
    (∀ w, (∀ c ∈ w, isJsonWs c = true) → ∀ acc l ms r,
      parseJMembers f acc (l ++ w) = some (ms, r ++ w) →
      ∀ g, 2 * l.length + 3 ≤ g → parseJMembers g acc l = some (ms, r)) ∧
    (∀ w, (∀ c ∈ w, isJsonWs c = true) → ∀ l s r,
      parseJStringBody f (l ++ w) = some (s, r ++ w) →
      ∀ g, 2 * l.length + 2 ≤ g → parseJStringBody g l = some (s, r)) := by
  intro f
  induction f with
  | zero =>
    exact ⟨fun w hw l v r h => by simp [parseJValue] at h,
           fun w hw l vs r h => by simp [parseJElems] at h,
           fun w hw acc l ms r h => by simp [parseJMembers] at h,
           fun w hw l s r h => by simp [parseJStringBody] at h⟩
  | succ f ih =>
    obtain ⟨ihV, ihE, ihM, ihS⟩ := ih
    refine ⟨?_, ?_, ?_, ?_⟩
    · -- parseJValue
      intro w hw l v r h g hg
      rcases l with _ | ⟨c, t⟩
      · exfalso
        rw [List.nil_append] at h
        rcases w with _ | ⟨c, t⟩
        · rw [parseJValue_nil] at h; cases h
        · rw [parseJValue_ws_head (f + 1) c t (hw c (List.mem_cons_self c t))] at h
          cases h
      · obtain ⟨g', rfl⟩ : ∃ g', g = g' + 1 := ⟨g - 1, by omega⟩
        rw [List.length_cons] at hg
        rw [List.cons_append] at h
        simp only [parseJValue] at h ⊢
        by_cases hq : c = '"'
        · rw [if_pos hq] at h ⊢
          rcases hsb : parseJStringBody f (t ++ w) with _ | ⟨s, rb⟩ <;>
            rw [hsb] at h <;> dsimp only at h
          · cases h
          · cases h
            rw [ihS w hw t s r hsb g' (by omega)]
        · rw [if_neg hq] at h ⊢
          by_cases ha : c = '['
          · rw [if_pos ha] at h ⊢
            by_cases hsk : skipWs t = []
            · exfalso
              rw [skipWs_append_jws_nil hsk hw] at h
              dsimp only at h
              cases h
            · rcases hsw : skipWs t with _ | ⟨c2, t2⟩
              · exact absurd hsw hsk
              · rw [skipWs_append_of_ne t hsk w, hsw, List.cons_append] at h
                dsimp only at h
                dsimp only
                have hlen2 : (c2 :: t2).length ≤ t.length := by
                  rw [← hsw]; exact (skipWs_suffix t).length_le
                rw [List.length_cons] at hlen2
                by_cases hb : c2 = ']'
                · rw [if_pos hb] at h ⊢
                  simp only [Option.some.injEq, Prod.mk.injEq] at h
                  obtain ⟨hv, ht2⟩ := h
                  subst hv
                  rw [List.append_cancel_right ht2]
                · rw [if_neg hb] at h ⊢
                  rcases he : parseJElems f (c2 :: (t2 ++ w)) with _ | ⟨vs0, re⟩ <;>
                    rw [he] at h <;> dsimp only at h
                  · cases h
                  · cases h
                    have he' : parseJElems f ((c2 :: t2) ++ w) = some (vs0, r ++ w) := by
                      rw [List.cons_append]; exact he
                    have hE := ihE w hw (c2 :: t2) vs0 r he' g'
                      (by rw [List.length_cons]; omega)
                    rw [hE]
          · rw [if_neg ha] at h ⊢
            by_cases ho : c = '{'
            · rw [if_pos ho] at h ⊢
              by_cases hsk : skipWs t = []
              · exfalso
                rw [skipWs_append_jws_nil hsk hw] at h
                dsimp only at h
                cases h
              · rcases hsw : skipWs t with _ | ⟨c2, t2⟩
                · exact absurd hsw hsk
                · rw [skipWs_append_of_ne t hsk w, hsw, List.cons_append] at h
                  dsimp only at h
                  dsimp only
                  have hlen2 : (c2 :: t2).length ≤ t.length := by
                    rw [← hsw]; exact (skipWs_suffix t).length_le
                  rw [List.length_cons] at hlen2
                  by_cases hb : c2 = '}'
                  · rw [if_pos hb] at h ⊢
                    simp only [Option.some.injEq, Prod.mk.injEq] at h
                    obtain ⟨hv, ht2⟩ := h
                    subst hv
                    rw [List.append_cancel_right ht2]
                  · rw [if_neg hb] at h ⊢
                    rcases hm : parseJMembers f [] (c2 :: (t2 ++ w)) with _ | ⟨ms0, re⟩ <;>
                      rw [hm] at h <;> dsimp only at h
                    · cases h
                    · cases h
                      have hm' : parseJMembers f [] ((c2 :: t2) ++ w) = some (ms0, r ++ w) := by
                        rw [List.cons_append]; exact hm
                      have hM := ihM w hw [] (c2 :: t2) ms0 r hm' g'
                        (by rw [List.length_cons]; omega)
                      rw [hM]
            · rw [if_neg ho] at h ⊢
              by_cases ht' : c = 't'
              · rw [if_pos ht'] at h ⊢
                by_cases hp : (("rue").toList).isPrefixOf (t ++ w) = true
                · rw [if_pos hp] at h
                  simp only [Option.some.injEq, Prod.mk.injEq] at h
                  obtain ⟨hv, hd⟩ := h
                  subst hv
                  obtain ⟨z, hz⟩ := List.isPrefixOf_iff_prefix.mp hp
                  have hzdrop : z = (t ++ w).drop 3 := by
                    rw [← hz]
                    rw [show (3 : Nat) = (("rue").toList).length from rfl, List.drop_left]
                  rw [← hzdrop] at hd
                  have ht : t = ("rue").toList ++ r := by
                    have : (("rue").toList ++ r) ++ w = t ++ w := by
                      rw [List.append_assoc, ← hd, hz]
                    exact (List.append_cancel_right this).symm
                  have hp2 : (("rue").toList).isPrefixOf t = true :=
                    List.isPrefixOf_iff_prefix.mpr ⟨r, ht.symm⟩
                  rw [if_pos hp2, ht]
                  rw [show (3 : Nat) = (("rue").toList).length from rfl, List.drop_left]
                · rw [if_neg hp] at h; cases h
              · rw [if_neg ht'] at h ⊢
                by_cases hf' : c = 'f'
                · rw [if_pos hf'] at h ⊢
                  by_cases hp : (("alse").toList).isPrefixOf (t ++ w) = true
                  · rw [if_pos hp] at h
                    simp only [Option.some.injEq, Prod.mk.injEq] at h
                    obtain ⟨hv, hd⟩ := h
                    subst hv
                    obtain ⟨z, hz⟩ := List.isPrefixOf_iff_prefix.mp hp
                    have hzdrop : z = (t ++ w).drop 4 := by
                      rw [← hz]
                      rw [show (4 : Nat) = (("alse").toList).length from rfl, List.drop_left]
                    rw [← hzdrop] at hd
                    have ht : t = ("alse").toList ++ r := by
                      have : (("alse").toList ++ r) ++ w = t ++ w := by
                        rw [List.append_assoc, ← hd, hz]
                      exact (List.append_cancel_right this).symm
                    have hp2 : (("alse").toList).isPrefixOf t = true :=
                      List.isPrefixOf_iff_prefix.mpr ⟨r, ht.symm⟩
                    rw [if_pos hp2, ht]
                    rw [show (4 : Nat) = (("alse").toList).length from rfl, List.drop_left]
                  · rw [if_neg hp] at h; cases h
                · rw [if_neg hf'] at h ⊢
                  by_cases hn' : c = 'n'
                  · rw [if_pos hn'] at h ⊢
                    by_cases hp : (("ull").toList).isPrefixOf (t ++ w) = true
                    · rw [if_pos hp] at h
                      simp only [Option.some.injEq, Prod.mk.injEq] at h
                      obtain ⟨hv, hd⟩ := h
                      subst hv
                      obtain ⟨z, hz⟩ := List.isPrefixOf_iff_prefix.mp hp
                      have hzdrop : z = (t ++ w).drop 3 := by
                        rw [← hz]
                        rw [show (3 : Nat) = (("ull").toList).length from rfl, List.drop_left]
                      rw [← hzdrop] at hd
                      have ht : t = ("ull").toList ++ r := by
                        have : (("ull").toList ++ r) ++ w = t ++ w := by
                          rw [List.append_assoc, ← hd, hz]
                        exact (List.append_cancel_right this).symm
                      have hp2 : (("ull").toList).isPrefixOf t = true :=
                        List.isPrefixOf_iff_prefix.mpr ⟨r, ht.symm⟩
                      rw [if_pos hp2, ht]
                      rw [show (3 : Nat) = (("ull").toList).length from rfl, List.drop_left]
                    · rw [if_neg hp] at h; cases h
                  · rw [if_neg hn'] at h ⊢
                    have hpn := parseNumber_append hw (c :: t)
                    rw [List.cons_append] at hpn
                    rw [hpn] at h
                    rcases hn : parseNumber (c :: t) with _ | ⟨q0, rn⟩ <;>
                      rw [hn] at h <;> dsimp only at h
                    · cases h
                    · simp only [Option.some.injEq, Prod.mk.injEq] at h
                      obtain ⟨hv, hr⟩ := h
                      subst hv
                      dsimp only
                      rw [List.append_cancel_right hr]
    · -- parseJElems
      intro w hw l vs r h g hg
      obtain ⟨g', rfl⟩ : ∃ g', g = g' + 1 := ⟨g - 1, by omega⟩
      simp only [parseJElems] at h ⊢
      rcases hv : parseJValue f (l ++ w) with _ | ⟨v0, r0⟩ <;>
        rw [hv] at h <;> dsimp only at h
      · cases h
      · rcases hs : skipWs r0 with _ | ⟨c2, r2⟩ <;> rw [hs] at h <;> dsimp only at h
        · cases h
        · have hcr : (c2 :: r2).IsSuffix r0 := by
            rw [← hs]; exact skipWs_suffix r0
          by_cases hc : c2 = ','
          · rw [if_pos hc] at h
            rcases he : parseJElems f (skipWs r2) with _ | ⟨vs0, r3⟩ <;>
              rw [he] at h <;> dsimp only at h
            · cases h
            · cases h
              have hchain : (r ++ w).IsSuffix r0 :=
                (((parseJ_suffix f).2.1 _ _ _ he).trans (skipWs_suffix r2)).trans
                  ((List.suffix_cons c2 r2).trans hcr)
              obtain ⟨p, hp⟩ := hchain
              have hr0 : r0 = (p ++ r) ++ w := by
                rw [List.append_assoc]; exact hp.symm
              rw [hr0] at hv
              have hx0l : (p ++ r).IsSuffix l :=
                suffix_append_cancel ((parseJ_suffix f).1 _ _ _ hv)
              have hVx := ihV w hw l v0 (p ++ r) hv g' (by omega)
              by_cases hsk : skipWs (p ++ r) = []
              · exfalso
                rw [hr0, skipWs_append_jws_nil hsk hw] at hs
                cases hs
              · rcases hsk2 : skipWs (p ++ r) with _ | ⟨c2x, t2x⟩
                · exact absurd hsk2 hsk
                · rw [hr0, skipWs_append_of_ne _ hsk w, hsk2, List.cons_append] at hs
                  injection hs with h1 h2
                  subst h1
                  rw [← h2] at he
                  by_cases hsk3 : skipWs t2x = []
                  · exfalso
                    rw [skipWs_append_jws_nil hsk3 hw, parseJElems_nil] at he
                    cases he
                  · rw [skipWs_append_of_ne t2x hsk3 w] at he
                    have hlx : (skipWs (p ++ r)).length ≤ (p ++ r).length :=
                      (skipWs_suffix (p ++ r)).length_le
                    rw [hsk2, List.length_cons] at hlx
                    have hll : (p ++ r).length ≤ l.length := hx0l.length_le
                    have hlt : (skipWs t2x).length ≤ t2x.length :=
                      (skipWs_suffix t2x).length_le
                    have hEx := ihE w hw (skipWs t2x) vs0 r he g' (by omega)
                    rw [hVx]
                    dsimp only
                    rw [hsk2]
                    dsimp only
                    rw [if_pos hc, hEx]
          · rw [if_neg hc] at h
            by_cases hb : c2 = ']'
            · rw [if_pos hb] at h
              cases h
              have hchain : (r ++ w).IsSuffix r0 :=
                (List.suffix_cons c2 (r ++ w)).trans hcr
              obtain ⟨p, hp⟩ := hchain
              have hr0 : r0 = (p ++ r) ++ w := by
                rw [List.append_assoc]; exact hp.symm
              rw [hr0] at hv
              have hx0l : (p ++ r).IsSuffix l :=
                suffix_append_cancel ((parseJ_suffix f).1 _ _ _ hv)
              have hVx := ihV w hw l v0 (p ++ r) hv g' (by omega)
              by_cases hsk : skipWs (p ++ r) = []
              · exfalso
                rw [hr0, skipWs_append_jws_nil hsk hw] at hs
                cases hs
              · rcases hsk2 : skipWs (p ++ r) with _ | ⟨c2x, t2x⟩
                · exact absurd hsk2 hsk
                · rw [hr0, skipWs_append_of_ne _ hsk w, hsk2, List.cons_append] at hs
                  injection hs with h1 h2
                  subst h1
                  have ht2r : t2x = r := List.append_cancel_right h2
                  subst ht2r
                  rw [hVx]
                  dsimp only
                  rw [hsk2]
                  dsimp only
                  rw [if_neg hc, if_pos hb]
            · rw [if_neg hb] at h
              cases h
    · -- parseJMembers
      intro w hw acc l ms r h g hg
      obtain ⟨g', rfl⟩ : ∃ g', g = g' + 1 := ⟨g - 1, by omega⟩
      rcases l with _ | ⟨c, t⟩
      · exfalso
        rw [List.nil_append] at h
        rcases w with _ | ⟨cw, tw⟩
        · rw [parseJMembers_nil] at h; cases h
        · have hcw : ¬ cw = '"' :=
            jws_ne (hw cw (List.mem_cons_self cw tw)) (by decide)
          simp only [parseJMembers] at h
          rw [if_neg hcw] at h
          cases h
      · rw [List.length_cons] at hg
        rw [List.cons_append] at h
        simp only [parseJMembers] at h ⊢
        by_cases hq : c = '"'
        · rw [if_pos hq] at h ⊢
          rcases hk : parseJStringBody f (t ++ w) with _ | ⟨k, r0⟩ <;>
            rw [hk] at h <;> dsimp only at h
          · cases h
          · rcases hs1 : skipWs r0 with _ | ⟨c2, r2⟩ <;> rw [hs1] at h <;>
              dsimp only at h
            · cases h
            · have hcr1 : (c2 :: r2).IsSuffix r0 := by
                rw [← hs1]; exact skipWs_suffix r0
              by_cases hc2 : c2 = ':'
              · rw [if_pos hc2] at h
                rcases hv : parseJValue f (skipWs r2) with _ | ⟨v0, r3⟩ <;>
                  rw [hv] at h <;> dsimp only at h
                · cases h
                · rcases hs2 : skipWs r3 with _ | ⟨c3, r4⟩ <;> rw [hs2] at h <;>
                    dsimp only at h
                  · cases h
                  · have hcr2 : (c3 :: r4).IsSuffix r3 := by
                      rw [← hs2]; exact skipWs_suffix r3
                    by_cases hc3 : c3 = ','
                    · rw [if_pos hc3] at h
                      have hch3 : (r ++ w).IsSuffix r3 :=
                        ((((parseJ_suffix f).2.2.1 _ _ _ _ h).trans
                          (skipWs_suffix r4)).trans (List.suffix_cons c3 r4)).trans hcr2
                      obtain ⟨p3, hp3⟩ := hch3
                      have hr3 : r3 = (p3 ++ r) ++ w := by
                        rw [List.append_assoc]; exact hp3.symm
                      rw [hr3] at hv
                      have hchV : ((p3 ++ r) ++ w).IsSuffix (skipWs r2) :=
                        (parseJ_suffix f).1 _ _ _ hv
                      have hch2 : ((p3 ++ r) ++ w).IsSuffix r0 :=
                        (hchV.trans (skipWs_suffix r2)).trans
                          ((List.suffix_cons c2 r2).trans hcr1)
                      obtain ⟨p0, hp0⟩ := hch2
                      have hr0 : r0 = (p0 ++ (p3 ++ r)) ++ w := by
                        rw [List.append_assoc]; exact hp0.symm
                      rw [hr0] at hk
                      have hx0t : (p0 ++ (p3 ++ r)).IsSuffix t :=
                        suffix_append_cancel ((parseJ_suffix f).2.2.2 _ _ _ hk)
                      have hSx := ihS w hw t k (p0 ++ (p3 ++ r)) hk g' (by omega)
                      by_cases hskA : skipWs (p0 ++ (p3 ++ r)) = []
                      · exfalso
                        rw [hr0, skipWs_append_jws_nil hskA hw] at hs1
                        cases hs1
                      · rcases hskA2 : skipWs (p0 ++ (p3 ++ r)) with _ | ⟨c2x, t2x⟩
                        · exact absurd hskA2 hskA
                        · rw [hr0, skipWs_append_of_ne _ hskA w, hskA2,
                            List.cons_append] at hs1
                          injection hs1 with h1 h2
                          subst h1
                          rw [← h2] at hv
                          by_cases hskB : skipWs t2x = []
                          · exfalso
                            rw [skipWs_append_jws_nil hskB hw, parseJValue_nil] at hv
                            cases hv
                          · rw [skipWs_append_of_ne t2x hskB w] at hv
                            have hA : (skipWs t2x).length ≤ t2x.length :=
                              (skipWs_suffix t2x).length_le
                            have hB : (skipWs (p0 ++ (p3 ++ r))).length ≤
                                (p0 ++ (p3 ++ r)).length :=
                              (skipWs_suffix _).length_le
                            rw [hskA2, List.length_cons] at hB
                            have hC : (p0 ++ (p3 ++ r)).length ≤ t.length :=
                              hx0t.length_le
                            have hVx := ihV w hw (skipWs t2x) v0 (p3 ++ r) hv g'
                              (by omega)
                            have hD : (p3 ++ r).IsSuffix (skipWs t2x) :=
                              suffix_append_cancel ((parseJ_suffix f).1 _ _ _ hv)
                            have hDl : (p3 ++ r).length ≤ (skipWs t2x).length :=
                              hD.length_le
                            by_cases hskC : skipWs (p3 ++ r) = []
                            · exfalso
                              rw [hr3, skipWs_append_jws_nil hskC hw] at hs2
                              cases hs2
                            · rcases hskC2 : skipWs (p3 ++ r) with _ | ⟨c3x, t4x⟩
                              · exact absurd hskC2 hskC
                              · rw [hr3, skipWs_append_of_ne _ hskC w, hskC2,
                                  List.cons_append] at hs2
                                injection hs2 with h3 h4
                                subst h3
                                rw [← h4] at h
                                by_cases hskD : skipWs t4x = []
                                · exfalso
                                  rw [skipWs_append_jws_nil hskD hw,
                                    parseJMembers_nil] at h
                                  cases h
                                · rw [skipWs_append_of_ne t4x hskD w] at h
                                  have hE2 : (skipWs (p3 ++ r)).length ≤
                                      (p3 ++ r).length :=
                                    (skipWs_suffix _).length_le
                                  rw [hskC2, List.length_cons] at hE2
                                  have hF : (skipWs t4x).length ≤ t4x.length :=
                                    (skipWs_suffix t4x).length_le
                                  have hMx := ihM w hw (dictInsert acc k v0)
                                    (skipWs t4x) ms r h g' (by omega)
                                  rw [hSx]
                                  dsimp only
                                  rw [hskA2]
                                  dsimp only
                                  rw [if_pos hc2, hVx]
                                  dsimp only
                                  rw [hskC2]
                                  dsimp only
                                  rw [if_pos hc3, hMx]
                    · rw [if_neg hc3] at h
                      by_cases hbr : c3 = '}'
                      · rw [if_pos hbr] at h
                        cases h
                        have hch3 : (r ++ w).IsSuffix r3 :=
                          (List.suffix_cons c3 (r ++ w)).trans hcr2
                        obtain ⟨p3, hp3⟩ := hch3
                        have hr3 : r3 = (p3 ++ r) ++ w := by
                          rw [List.append_assoc]; exact hp3.symm
                        rw [hr3] at hv
                        have hchV : ((p3 ++ r) ++ w).IsSuffix (skipWs r2) :=
                          (parseJ_suffix f).1 _ _ _ hv
                        have hch2 : ((p3 ++ r) ++ w).IsSuffix r0 :=
                          (hchV.trans (skipWs_suffix r2)).trans
                            ((List.suffix_cons c2 r2).trans hcr1)
                        obtain ⟨p0, hp0⟩ := hch2
                        have hr0 : r0 = (p0 ++ (p3 ++ r)) ++ w := by
                          rw [List.append_assoc]; exact hp0.symm
                        rw [hr0] at hk
                        have hx0t : (p0 ++ (p3 ++ r)).IsSuffix t :=
                          suffix_append_cancel ((parseJ_suffix f).2.2.2 _ _ _ hk)
                        have hSx := ihS w hw t k (p0 ++ (p3 ++ r)) hk g' (by omega)
                        by_cases hskA : skipWs (p0 ++ (p3 ++ r)) = []
                        · exfalso
                          rw [hr0, skipWs_append_jws_nil hskA hw] at hs1
                          cases hs1
                        · rcases hskA2 : skipWs (p0 ++ (p3 ++ r)) with _ | ⟨c2x, t2x⟩
                          · exact absurd hskA2 hskA
                          · rw [hr0, skipWs_append_of_ne _ hskA w, hskA2,
                              List.cons_append] at hs1
                            injection hs1 with h1 h2
                            subst h1
                            rw [← h2] at hv
                            by_cases hskB : skipWs t2x = []
                            · exfalso
                              rw [skipWs_append_jws_nil hskB hw, parseJValue_nil] at hv
                              cases hv
                            · rw [skipWs_append_of_ne t2x hskB w] at hv
                              have hA : (skipWs t2x).length ≤ t2x.length :=
                                (skipWs_suffix t2x).length_le
                              have hB : (skipWs (p0 ++ (p3 ++ r))).length ≤
                                  (p0 ++ (p3 ++ r)).length :=
                                (skipWs_suffix _).length_le
                              rw [hskA2, List.length_cons] at hB
                              have hC : (p0 ++ (p3 ++ r)).length ≤ t.length :=
                                hx0t.length_le
                              have hVx := ihV w hw (skipWs t2x) v0 (p3 ++ r) hv g'
                                (by omega)
                              by_cases hskC : skipWs (p3 ++ r) = []
                              · exfalso
                                rw [hr3, skipWs_append_jws_nil hskC hw] at hs2
                                cases hs2
                              · rcases hskC2 : skipWs (p3 ++ r) with _ | ⟨c3x, t4x⟩
                                · exact absurd hskC2 hskC
                                · rw [hr3, skipWs_append_of_ne _ hskC w, hskC2,
                                    List.cons_append] at hs2
                                  injection hs2 with h3 h4
                                  subst h3
                                  have ht4r : t4x = r := List.append_cancel_right h4
                                  subst ht4r
                                  rw [hSx]
                                  dsimp only
                                  rw [hskA2]
                                  dsimp only
                                  rw [if_pos hc2, hVx]
                                  dsimp only
                                  rw [hskC2]
                                  dsimp only
                                  rw [if_neg hc3, if_pos hbr]
                      · rw [if_neg hbr] at h
                        cases h
              · rw [if_neg hc2] at h
                cases h
        · rw [if_neg hq] at h
          cases h
    · -- parseJStringBody
      intro w hw l s r h g hg
      obtain ⟨g', rfl⟩ : ∃ g', g = g' + 1 := ⟨g - 1, by omega⟩
      rcases l with _ | ⟨c, t⟩
      · exfalso
        rw [List.nil_append, parseJStringBody_all_jws (f + 1) w hw] at h
        cases h
      · rw [List.length_cons] at hg
        rw [List.cons_append] at h
        simp only [parseJStringBody] at h ⊢
        by_cases hq : c = '"'
        · rw [if_pos hq] at h ⊢
          simp only [Option.some.injEq, Prod.mk.injEq] at h
          obtain ⟨hs', ht⟩ := h
          subst hs'
          rw [List.append_cancel_right ht]
        · rw [if_neg hq] at h ⊢
          by_cases hbs : c = '\\'
          · rw [if_pos hbs] at h ⊢
            rcases t with _ | ⟨e, t2⟩
            · exfalso
              rw [List.nil_append] at h
              rcases w with _ | ⟨e, t2⟩
              · dsimp only at h; cases h
              · dsimp only at h
                have hjw := hw e (List.mem_cons_self e t2)
                have hu : ¬ e = 'u' := jws_ne hjw (by decide)
                rw [if_neg hu, jws_simpleEscape hjw] at h
                dsimp only at h
                cases h
            · rw [List.length_cons] at hg
              rw [List.cons_append] at h
              dsimp only at h ⊢
              by_cases he : e = 'u'
              · rw [if_pos he] at h ⊢
                rw [parseHex4_append_eq hw t2] at h
                rcases hh : parseHex4 t2 with _ | ⟨n, t3⟩ <;> rw [hh] at h <;>
                  dsimp only at h
                · cases h
                · dsimp only
                  by_cases hsr : 0xD800 ≤ n ∧ n ≤ 0xDBFF
                  · rw [if_pos hsr] at h ⊢
                    rcases hsl : surrLook (t3 ++ w) with ⟨n2, t5'⟩ | _ | _ <;>
                      rw [hsl] at h <;> dsimp only at h
                    · obtain ⟨t4', hteq, hph, hlo⟩ := surrLook_join_shape hsl
                      rcases t3 with _ | ⟨a, _ | ⟨b, t4⟩⟩
                      · exfalso
                        rw [List.nil_append] at hteq
                        have hmem : '\\' ∈ w := by
                          rw [hteq]; exact List.mem_cons_self _ _
                        exact absurd (hw _ hmem) (by decide)
                      · exfalso
                        simp only [List.cons_append, List.nil_append] at hteq
                        injection hteq with h1 h2
                        have hmem : 'u' ∈ w := by
                          rw [h2]; exact List.mem_cons_self _ _
                        exact absurd (hw _ hmem) (by decide)
                      · simp only [List.cons_append] at hteq
                        injection hteq with h1 hrest
                        injection hrest with h2 h3
                        subst h1
                        subst h2
                        rw [← h3, parseHex4_append_eq hw t4] at hph
                        rcases hh2 : parseHex4 t4 with _ | ⟨n2x, y⟩ <;>
                          rw [hh2] at hph <;> dsimp only at hph
                        · cases hph
                        · simp only [Option.some.injEq, Prod.mk.injEq] at hph
                          obtain ⟨hn2, hy⟩ := hph
                          subst hn2
                          rw [← hy] at h
                          rcases hb : parseJStringBody f (y ++ w) with _ | ⟨s0, rb⟩ <;>
                            rw [hb] at h <;> dsimp only at h
                          · cases h
                          · cases h
                            have h1l : y.length ≤ t4.length :=
                              (parseHex4_suffix hh2).length_le
                            have h2l : ('\\' :: 'u' :: t4).length ≤ t2.length :=
                              (parseHex4_suffix hh).length_le
                            simp only [List.length_cons] at h2l
                            have hSx := ihS w hw y s0 r hb g' (by omega)
                            rw [surrLook_join_intro hh2 hlo]
                            dsimp only
                            rw [hSx]
                    · cases h
                    · rcases hb : parseJStringBody f (t3 ++ w) with _ | ⟨s0, rb⟩ <;>
                        rw [hb] at h <;> dsimp only at h
                      · cases h
                      · cases h
                        have ht3l : t3.length ≤ t2.length :=
                          (parseHex4_suffix hh).length_le
                        have hSx := ihS w hw t3 s0 r hb g' (by omega)
                        rcases hsl2 : surrLook t3 with ⟨m, t5x⟩ | _ | _
                        · exfalso
                          obtain ⟨t4x, hteq2, hph2, hlo2⟩ := surrLook_join_shape hsl2
                          rw [hteq2, List.cons_append, List.cons_append] at hsl
                          have hj : surrLook ('\\' :: 'u' :: (t4x ++ w)) =
                              .join m (t5x ++ w) :=
                            surrLook_join_intro
                              (by rw [parseHex4_append_eq hw t4x, hph2]) hlo2
                          rw [hj] at hsl
                          cases hsl
                        · exfalso
                          obtain ⟨t4x, hteq2, hph2⟩ := surrLook_bad_shape hsl2
                          rw [hteq2, List.cons_append, List.cons_append] at hsl
                          have hj : surrLook ('\\' :: 'u' :: (t4x ++ w)) = .bad :=
                            surrLook_bad_intro
                              (by rw [parseHex4_append_eq hw t4x, hph2])
                          rw [hj] at hsl
                          cases hsl
                        · dsimp only
                          rw [hSx]
                  · rw [if_neg hsr] at h ⊢
                    rcases hb : parseJStringBody f (t3 ++ w) with _ | ⟨s0, rb⟩ <;>
                      rw [hb] at h <;> dsimp only at h
                    · cases h
                    · cases h
                      have ht3l : t3.length ≤ t2.length :=
                        (parseHex4_suffix hh).length_le
                      have hSx := ihS w hw t3 s0 r hb g' (by omega)
                      rw [hSx]
              · rw [if_neg he] at h ⊢
                rcases hse : simpleEscape e with _ | ch <;> rw [hse] at h <;>
                  dsimp only at h
                · cases h
                · dsimp only
                  rcases hb : parseJStringBody f (t2 ++ w) with _ | ⟨s0, rb⟩ <;>
                    rw [hb] at h <;> dsimp only at h
                  · cases h
                  · cases h
                    have hSx := ihS w hw t2 s0 r hb g' (by omega)
                    rw [hSx]
          · rw [if_neg hbs] at h ⊢
            by_cases hctl : c.toNat < 0x20
            · rw [if_pos hctl] at h
              cases h
            · rw [if_neg hctl] at h ⊢
              rcases hb : parseJStringBody f (t ++ w) with _ | ⟨s0, rb⟩ <;>
                rw [hb] at h <;> dsimp only at h
              · cases h
              · cases h
                have hSx := ihS w hw t s0 r hb g' (by omega)
                rw [hSx]

theorem digit_not_pyws {c : Char} (h : c.isDigit = true) : isPyWs c = false := by
  simp only [Char.isDigit, Bool.and_eq_true, decide_eq_true_eq] at h
  have h1 : 48 ≤ c.toNat := h.1
  have h2 : c.toNat ≤ 57 := h.2
  have e1 : ¬ c = ' ' := fun he => absurd h1 (by subst he; decide)
  have e2 : ¬ c = '\t' := fun he => absurd h1 (by subst he; decide)
  have e3 : ¬ c = '\n' := fun he => absurd h1 (by subst he; decide)
  have e4 : ¬ c = '\r' := fun he => absurd h1 (by subst he; decide)
  have e5 : ¬ c = '\x0b' := fun he => absurd h1 (by subst he; decide)
  have e6 : ¬ c = '\x0c' := fun he => absurd h1 (by subst he; decide)
  have e7 : ¬ c.toNat ≤ 0x1f := by omega
  have e8 : ¬ c = '\x85' := fun he => absurd h2 (by subst he; decide)
  have e9 : ¬ c = '\xa0' := fun he => absurd h2 (by subst he; decide)
  simp [isPyWs, isJsonWs, e1, e2, e3, e4, e5, e6, e7, e8, e9]

theorem jws_pyws {c : Char} (h : isJsonWs c = true) : isPyWs c = true := by
  simp [isPyWs, h]

theorem pyws_false_jws {c : Char} (h : isPyWs c = false) : isJsonWs c = false := by
  cases hj : isJsonWs c
  · rfl
  · rw [jws_pyws hj] at h; cases h

theorem dropWhile_head_false {p : Char → Bool} :
    ∀ {l : Str} {c : Char} {t : Str}, l.dropWhile p = c :: t → p c = false := by
  intro l
  induction l with
  | nil => intro c t h; cases h
  | cons a l2 ih =>
    intro c t h
    rw [List.dropWhile_cons] at h
    by_cases hp : p a = true
    · rw [if_pos hp] at h
      exact ih h
    · rw [if_neg hp] at h
      injection h with h1 _
      subst h1
      revert hp; cases p a <;> simp

theorem concat_of_ne_nil {l : Str} (h : l ≠ []) : ∃ l2 a, l = l2 ++ [a] := by
  rcases List.eq_nil_or_concat l with h0 | ⟨L, b, h0⟩
  · exact absurd h0 h
  · exact ⟨L, b, by rw [h0, List.concat_eq_append]⟩

theorem dropWhile_of_takeWhile_nil {p : Char → Bool} {l : Str}
    (h : l.takeWhile p = []) : l.dropWhile p = l := by
  conv_rhs => rw [← List.takeWhile_append_dropWhile p l]
  rw [h, List.nil_append]

theorem negSplit_shape (l : Str) : ∃ np, np ++ (negSplit l).2 = l := by
  rcases l with _ | ⟨c, t⟩
  · exact ⟨[], rfl⟩
  · by_cases hc : c = '-'
    · exact ⟨[c], by simp [negSplit, hc]⟩
    · exact ⟨[], by simp [negSplit, hc]⟩

theorem signSplit_shape (l : Str) : ∃ sp, sp ++ (signSplit l).2 = l := by
  rcases l with _ | ⟨c, t⟩
  · exact ⟨[], rfl⟩
  · by_cases hm : c = '-'
    · exact ⟨[c], by simp [signSplit, hm]⟩
    · by_cases hp : c = '+'
      · exact ⟨[c], by simp [signSplit, hm, hp]⟩
      · exact ⟨[], by simp [signSplit, hm, hp]⟩

theorem intLast {l1 ip l2 : Str} (h : parseIntDigits l1 = some (ip, l2)) :
    ∃ p d, p ++ d :: l2 = l1 ∧ d.isDigit = true := by
  rcases l1 with _ | ⟨c, t⟩
  · cases h
  · simp only [parseIntDigits] at h
    by_cases h0 : c = '0'
    · rw [if_pos h0] at h
      injection h with h1
      injection h1 with _ h2
      exact ⟨[], c, by rw [h2, List.nil_append], by rw [h0]; decide⟩
    · rw [if_neg h0] at h
      by_cases hd : c.isDigit = true
      · rw [if_pos hd] at h
        injection h with h1
        injection h1 with _ h2
        by_cases hds : t.takeWhile Char.isDigit = []
        · refine ⟨[], c, ?_, hd⟩
          rw [← h2, List.nil_append, dropWhile_of_takeWhile_nil hds]
        · obtain ⟨ds2, d, hcat⟩ := concat_of_ne_nil hds
          refine ⟨c :: ds2, d, ?_, ?_⟩
          · rw [← h2]
            have := List.takeWhile_append_dropWhile Char.isDigit t
            rw [hcat] at this
            simp only [List.cons_append, List.append_assoc, List.cons_append,
              List.nil_append] at this ⊢
            rw [this]
          · exact List.mem_takeWhile_imp (by rw [hcat]; simp)
      · rw [if_neg hd] at h
        cases h

theorem fracLast {l2 fp l3 : Str} (h : parseFracDigits l2 = some (fp, l3)) :
    l3 = l2 ∨ ∃ p d, p ++ d :: l3 = l2 ∧ d.isDigit = true := by
  rcases l2 with _ | ⟨c, t⟩
  · injection h with h1
    injection h1 with _ h2
    exact Or.inl h2.symm
  · simp only [parseFracDigits] at h
    by_cases hdot : c = '.'
    · rw [if_pos hdot] at h
      by_cases hemp : (t.takeWhile Char.isDigit).isEmpty = true
      · rw [if_pos hemp] at h; cases h
      · rw [if_neg hemp] at h
        injection h with h1
        injection h1 with _ h2
        have hds : t.takeWhile Char.isDigit ≠ [] := by
          intro hnil
          rw [hnil] at hemp
          exact hemp rfl
        obtain ⟨ds2, d, hcat⟩ := concat_of_ne_nil hds
        refine Or.inr ⟨c :: ds2, d, ?_, ?_⟩
        · rw [← h2]
          have := List.takeWhile_append_dropWhile Char.isDigit t
          rw [hcat] at this
          simp only [List.cons_append, List.append_assoc, List.nil_append] at this ⊢
          rw [this]
        · exact List.mem_takeWhile_imp (by rw [hcat]; simp)
    · rw [if_neg hdot] at h
      injection h with h1
      injection h1 with _ h2
      exact Or.inl h2.symm

theorem expLast {l3 : Str} {e : Int} {l4 : Str} (h : parseExpDigits l3 = some (e, l4)) :
    l4 = l3 ∨ ∃ p d, p ++ d :: l4 = l3 ∧ d.isDigit = true := by
  rcases l3 with _ | ⟨c, t⟩
  · injection h with h1
    injection h1 with _ h2
    exact Or.inl h2.symm
  · simp only [parseExpDigits] at h
    by_cases he : c = 'e' ∨ c = 'E'
    · rw [if_pos he] at h
      by_cases hemp : (((signSplit t).2).takeWhile Char.isDigit).isEmpty = true
      · rw [if_pos hemp] at h; cases h
      · rw [if_neg hemp] at h
        injection h with h1
        injection h1 with _ h2
        have hds : ((signSplit t).2).takeWhile Char.isDigit ≠ [] := by
          intro hnil
          rw [hnil] at hemp
          exact hemp rfl
        obtain ⟨ds2, d, hcat⟩ := concat_of_ne_nil hds
        obtain ⟨sp, hsp⟩ := signSplit_shape t
        refine Or.inr ⟨c :: (sp ++ ds2), d, ?_, ?_⟩
        · rw [← h2]
          have := List.takeWhile_append_dropWhile Char.isDigit ((signSplit t).2)
          rw [hcat] at this
          have h3 : sp ++ (ds2 ++ [d] ++ ((signSplit t).2).dropWhile Char.isDigit) = t := by
            rw [this]; exact hsp
          simp only [List.cons_append, List.append_assoc, List.nil_append] at h3 ⊢
          rw [h3]
        · exact List.mem_takeWhile_imp (by rw [hcat]; simp)
    · rw [if_neg he] at h
      injection h with h1
      injection h1 with _ h2
      exact Or.inl h2.symm

theorem numberLast {l : Str} {q : ℚ} {r : Str} (h : parseNumber l = some (q, r)) :
    ∃ p d, p ++ d :: r = l ∧ d.isDigit = true := by
  obtain ⟨np, hnp⟩ := negSplit_shape l
  simp only [parseNumber] at h
  rcases hip : parseIntDigits (negSplit l).2 with _ | ⟨ip, l2⟩ <;> rw [hip] at h <;>
    dsimp only at h
  · cases h
  · rcases hfp : parseFracDigits l2 with _ | ⟨fp, l3⟩ <;> rw [hfp] at h <;>
      dsimp only at h
    · cases h
    · rcases hep : parseExpDigits l3 with _ | ⟨e0, l4⟩ <;> rw [hep] at h <;>
        dsimp only at h
      · cases h
      · have hr : l4 = r := by
          simp only [Option.some.injEq, Prod.mk.injEq] at h
          exact h.2
        obtain ⟨pi, di, hpdi, hdi⟩ := intLast hip
        rcases expLast hep with h4 | ⟨pe, de, hpde, hde⟩
        · rcases fracLast hfp with h3 | ⟨pf, df, hpdf, hdf⟩
          · refine ⟨np ++ pi, di, ?_, hdi⟩
            rw [List.append_assoc, ← hr, h4, h3, hpdi, hnp]
          · refine ⟨np ++ pi ++ di :: pf, df, ?_, hdf⟩
            calc (np ++ pi ++ di :: pf) ++ df :: r
                = np ++ (pi ++ di :: (pf ++ df :: r)) := by
                  simp [List.append_assoc]
              _ = np ++ (pi ++ di :: (pf ++ df :: l3)) := by rw [← hr, h4]
              _ = np ++ (pi ++ di :: l2) := by rw [hpdf]
              _ = l := by rw [hpdi, hnp]
        · rcases fracLast hfp with h3 | ⟨pf, df, hpdf, hdf⟩
          · refine ⟨np ++ pi ++ di :: pe, de, ?_, hde⟩
            calc (np ++ pi ++ di :: pe) ++ de :: r
                = np ++ (pi ++ di :: (pe ++ de :: l4)) := by
                  rw [hr]; simp [List.append_assoc]
              _ = np ++ (pi ++ di :: l3) := by rw [hpde]
              _ = np ++ (pi ++ di :: l2) := by rw [h3]
              _ = l := by rw [hpdi, hnp]
          · refine ⟨np ++ pi ++ di :: pf ++ df :: pe, de, ?_, hde⟩
            calc (np ++ pi ++ di :: pf ++ df :: pe) ++ de :: r
                = np ++ (pi ++ di :: (pf ++ df :: (pe ++ de :: l4))) := by
                  rw [hr]; simp [List.append_assoc]
              _ = np ++ (pi ++ di :: (pf ++ df :: l3)) := by rw [hpde]
              _ = np ++ (pi ++ di :: l2) := by rw [hpdf]
              _ = l := by rw [hpdi, hnp]

theorem parseNumber_head {c : Char} {t : Str} {q : ℚ} {r : Str}
    (h : parseNumber (c :: t) = some (q, r)) : isPyWs c = false := by
  by_cases hm : c = '-'
  · subst hm; decide
  · simp only [parseNumber] at h
    have hneg : negSplit (c :: t) = (false, c :: t) := by simp [negSplit, hm]
    rw [hneg] at h
    dsimp only at h
    rcases hip : parseIntDigits (c :: t) with _ | ⟨ip, l2⟩ <;> rw [hip] at h <;>
      dsimp only at h
    · cases h
    · simp only [parseIntDigits] at hip
      by_cases h0 : c = '0'
      · subst h0; decide
      · rw [if_neg h0] at hip
        by_cases hd : c.isDigit = true
        · exact digit_not_pyws hd
        · rw [if_neg hd] at hip
          cases hip

theorem value_head_not_pyws {f : Nat} {c : Char} {t : Str} {v : JVal} {r : Str}
    (h : parseJValue f (c :: t) = some (v, r)) : isPyWs c = false := by
  cases f with
  | zero => simp [parseJValue] at h
  | succ f =>
    simp only [parseJValue] at h
    by_cases hq : c = '"'
    · subst hq; decide
    · rw [if_neg hq] at h
      by_cases ha : c = '['
      · subst ha; decide
      · rw [if_neg ha] at h
        by_cases ho : c = '{'
        · subst ho; decide
        · rw [if_neg ho] at h
          by_cases ht' : c = 't'
          · subst ht'; decide
          · rw [if_neg ht'] at h
            by_cases hf' : c = 'f'
            · subst hf'; decide
            · rw [if_neg hf'] at h
              by_cases hn' : c = 'n'
              · subst hn'; decide
              · rw [if_neg hn'] at h
                rcases hn : parseNumber (c :: t) with _ | ⟨q0, rn⟩ <;>
                  rw [hn] at h <;> dsimp only at h
                · cases h
                · exact parseNumber_head hn

/-- The character consumed immediately before a parser's rest is never
Python whitespace (closing quote, bracket, brace, literal letter, or a
digit). -/
theorem parseJ_lastChar : ∀ f : Nat,
    (∀ l v r, parseJValue f l = some (v, r) →
      ∃ p c2, p ++ c2 :: r = l ∧ isPyWs c2 = false) ∧
    (∀ l vs r, parseJElems f l = some (vs, r) →
      ∃ p c2, p ++ c2 :: r = l ∧ isPyWs c2 = false) ∧
    (∀ acc l ms r, parseJMembers f acc l = some (ms, r) →
      ∃ p c2, p ++ c2 :: r = l ∧ isPyWs c2 = false) ∧
    (∀ l s r, parseJStringBody f l = some (s, r) →
      ∃ p c2, p ++ c2 :: r = l ∧ isPyWs c2 = false) := by
  intro f
  induction f with
  | zero =>
    exact ⟨fun l v r h => by simp [parseJValue] at h,
           fun l vs r h => by simp [parseJElems] at h,
           fun acc l ms r h => by simp [parseJMembers] at h,
           fun l s r h => by simp [parseJStringBody] at h⟩
  | succ f ih =>
    obtain ⟨ihV, ihE, ihM, ihS⟩ := ih
    refine ⟨?_, ?_, ?_, ?_⟩
    · -- parseJValue
      intro l v r h
      rcases l with _ | ⟨c, t⟩
      · simp [parseJValue] at h
      · simp only [parseJValue] at h
        by_cases hq : c = '"'
        · rw [if_pos hq] at h
          rcases hsb : parseJStringBody f t with _ | ⟨s, rb⟩ <;> rw [hsb] at h <;>
            dsimp only at h
          · cases h
          · cases h
            obtain ⟨p, c2, hpc, hc2⟩ := ihS _ _ _ hsb
            exact ⟨c :: p, c2, by rw [← hpc]; rfl, hc2⟩
        · rw [if_neg hq] at h
          by_cases ha : c = '['
          · rw [if_pos ha] at h
            rcases hsw : skipWs t with _ | ⟨c2h, t2⟩ <;> rw [hsw] at h <;>
              dsimp only at h
            · cases h
            · have hsfx : (c2h :: t2).IsSuffix (c :: t) := by
                rw [← hsw]
                exact (skipWs_suffix t).trans (List.suffix_cons c t)
              by_cases hb : c2h = ']'
              · rw [if_pos hb] at h
                cases h
                obtain ⟨p', hp'⟩ := hsfx
                exact ⟨p', c2h, hp', by rw [hb]; decide⟩
              · rw [if_neg hb] at h
                rcases he : parseJElems f (c2h :: t2) with _ | ⟨vs0, re⟩ <;>
                  rw [he] at h <;> dsimp only at h
                · cases h
                · cases h
                  obtain ⟨p, c2, hpc, hc2⟩ := ihE _ _ _ he
                  obtain ⟨p', hp'⟩ := hsfx
                  refine ⟨p' ++ p, c2, ?_, hc2⟩
                  rw [← hp', ← hpc]
                  simp [List.append_assoc]
          · rw [if_neg ha] at h
            by_cases ho : c = '{'
            · rw [if_pos ho] at h
              rcases hsw : skipWs t with _ | ⟨c2h, t2⟩ <;> rw [hsw] at h <;>
                dsimp only at h
              · cases h
              · have hsfx : (c2h :: t2).IsSuffix (c :: t) := by
                  rw [← hsw]
                  exact (skipWs_suffix t).trans (List.suffix_cons c t)
                by_cases hb : c2h = '}'
                · rw [if_pos hb] at h
                  cases h
                  obtain ⟨p', hp'⟩ := hsfx
                  exact ⟨p', c2h, hp', by rw [hb]; decide⟩
                · rw [if_neg hb] at h
                  rcases hm : parseJMembers f [] (c2h :: t2) with _ | ⟨ms0, re⟩ <;>
                    rw [hm] at h <;> dsimp only at h
                  · cases h
                  · cases h
                    obtain ⟨p, c2, hpc, hc2⟩ := ihM _ _ _ _ hm
                    obtain ⟨p', hp'⟩ := hsfx
                    refine ⟨p' ++ p, c2, ?_, hc2⟩
                    rw [← hp', ← hpc]
                    simp [List.append_assoc]
            · rw [if_neg ho] at h
              by_cases ht' : c = 't'
              · subst ht'
                rw [if_pos rfl] at h
                by_cases hp : (("rue").toList).isPrefixOf t = true
                · rw [if_pos hp] at h
                  cases h
                  obtain ⟨z, hz⟩ := List.isPrefixOf_iff_prefix.mp hp
                  have hzdrop : z = t.drop 3 := by
                    rw [← hz, show (3 : Nat) = (("rue").toList).length from rfl,
                      List.drop_left]
                  refine ⟨['t', 'r', 'u'], 'e', ?_, by decide⟩
                  rw [← hzdrop, ← hz]
                  rfl
                · rw [if_neg hp] at h; cases h
              · rw [if_neg ht'] at h
                by_cases hf' : c = 'f'
                · subst hf'
                  rw [if_pos rfl] at h
                  by_cases hp : (("alse").toList).isPrefixOf t = true
                  · rw [if_pos hp] at h
                    cases h
                    obtain ⟨z, hz⟩ := List.isPrefixOf_iff_prefix.mp hp
                    have hzdrop : z = t.drop 4 := by
                      rw [← hz, show (4 : Nat) = (("alse").toList).length from rfl,
                        List.drop_left]
                    refine ⟨['f', 'a', 'l', 's'], 'e', ?_, by decide⟩
                    rw [← hzdrop, ← hz]
                    rfl
                  · rw [if_neg hp] at h; cases h
                · rw [if_neg hf'] at h
                  by_cases hn' : c = 'n'
                  · subst hn'
                    rw [if_pos rfl] at h
                    by_cases hp : (("ull").toList).isPrefixOf t = true
                    · rw [if_pos hp] at h
                      cases h
                      obtain ⟨z, hz⟩ := List.isPrefixOf_iff_prefix.mp hp
                      have hzdrop : z = t.drop 3 := by
                        rw [← hz, show (3 : Nat) = (("ull").toList).length from rfl,
                          List.drop_left]
                      refine ⟨['n', 'u', 'l'], 'l', ?_, by decide⟩
                      rw [← hzdrop, ← hz]
                      rfl
                    · rw [if_neg hp] at h; cases h
                  · rw [if_neg hn'] at h
                    rcases hn : parseNumber (c :: t) with _ | ⟨q0, rn⟩ <;>
                      rw [hn] at h <;> dsimp only at h
                    · cases h
                    · cases h
                      obtain ⟨p, d, hpd, hdig⟩ := numberLast hn
                      exact ⟨p, d, hpd, digit_not_pyws hdig⟩
    · -- parseJElems
      intro l vs r h
      simp only [parseJElems] at h
      rcases hv : parseJValue f l with _ | ⟨v0, r0⟩ <;> rw [hv] at h <;>
        dsimp only at h
      · cases h
      · have hr0 : r0.IsSuffix l := (parseJ_suffix f).1 _ _ _ hv
        rcases hs : skipWs r0 with _ | ⟨c2h, r2⟩ <;> rw [hs] at h <;> dsimp only at h
        · cases h
        · have hsfx : (c2h :: r2).IsSuffix l := by
            rw [← hs]
            exact (skipWs_suffix r0).trans hr0
          by_cases hc : c2h = ','
          · rw [if_pos hc] at h
            rcases he : parseJElems f (skipWs r2) with _ | ⟨vs0, r3⟩ <;>
              rw [he] at h <;> dsimp only at h
            · cases h
            · cases h
              obtain ⟨p, c2, hpc, hc2⟩ := ihE _ _ _ he
              have hsfx2 : (skipWs r2).IsSuffix l :=
                (skipWs_suffix r2).trans ((List.suffix_cons c2h r2).trans hsfx)
              obtain ⟨p', hp'⟩ := hsfx2
              refine ⟨p' ++ p, c2, ?_, hc2⟩
              rw [← hp', ← hpc]
              simp [List.append_assoc]
          · rw [if_neg hc] at h
            by_cases hb : c2h = ']'
            · rw [if_pos hb] at h
              cases h
              obtain ⟨p', hp'⟩ := hsfx
              exact ⟨p', c2h, hp', by rw [hb]; decide⟩
            · rw [if_neg hb] at h
              cases h
    · -- parseJMembers
      intro acc l ms r h
      rcases l with _ | ⟨c, t⟩
      · simp [parseJMembers] at h
      · simp only [parseJMembers] at h
        by_cases hq : c = '"'
        · rw [if_pos hq] at h
          rcases hk : parseJStringBody f t with _ | ⟨k, r0⟩ <;> rw [hk] at h <;>
            dsimp only at h
          · cases h
          · have hr0 : r0.IsSuffix (c :: t) :=
              ((parseJ_suffix f).2.2.2 _ _ _ hk).trans (List.suffix_cons c t)
            rcases hs1 : skipWs r0 with _ | ⟨c2, r2⟩ <;> rw [hs1] at h <;>
              dsimp only at h
            · cases h
            · have hsfx1 : (c2 :: r2).IsSuffix (c :: t) := by
                rw [← hs1]
                exact (skipWs_suffix r0).trans hr0
              by_cases hc2 : c2 = ':'
              · rw [if_pos hc2] at h
                rcases hv : parseJValue f (skipWs r2) with _ | ⟨v0, r3⟩ <;>
                  rw [hv] at h <;> dsimp only at h
                · cases h
                · have hr3 : r3.IsSuffix (c :: t) :=
                    (((parseJ_suffix f).1 _ _ _ hv).trans
                      (skipWs_suffix r2)).trans
                      ((List.suffix_cons c2 r2).trans hsfx1)
                  rcases hs2 : skipWs r3 with _ | ⟨c3, r4⟩ <;> rw [hs2] at h <;>
                    dsimp only at h
                  · cases h
                  · have hsfx2 : (c3 :: r4).IsSuffix (c :: t) := by
                      rw [← hs2]
                      exact (skipWs_suffix r3).trans hr3
                    by_cases hc3 : c3 = ','
                    · rw [if_pos hc3] at h
                      obtain ⟨p, c4, hpc, hc4⟩ := ihM _ _ _ _ h
                      have hsfx3 : (skipWs r4).IsSuffix (c :: t) :=
                        (skipWs_suffix r4).trans
                          ((List.suffix_cons c3 r4).trans hsfx2)
                      obtain ⟨p', hp'⟩ := hsfx3
                      refine ⟨p' ++ p, c4, ?_, hc4⟩
                      rw [← hp', ← hpc]
                      simp [List.append_assoc]
                    · rw [if_neg hc3] at h
                      by_cases hbr : c3 = '}'
                      · rw [if_pos hbr] at h
                        cases h
                        obtain ⟨p', hp'⟩ := hsfx2
                        exact ⟨p', c3, hp', by rw [hbr]; decide⟩
                      · rw [if_neg hbr] at h
                        cases h
              · rw [if_neg hc2] at h
                cases h
        · rw [if_neg hq] at h
          cases h
    · -- parseJStringBody
      intro l s r h
      rcases l with _ | ⟨c, t⟩
      · simp [parseJStringBody] at h
      · simp only [parseJStringBody] at h
        by_cases hq : c = '"'
        · subst hq
          rw [if_pos rfl] at h
          cases h
          exact ⟨[], '"', rfl, by decide⟩
        · rw [if_neg hq] at h
          by_cases hbs : c = '\\'
          · rw [if_pos hbs] at h
            rcases t with _ | ⟨e, t2⟩
            · dsimp only at h; cases h
            · dsimp only at h
              by_cases he : e = 'u'
              · rw [if_pos he] at h
                rcases hh : parseHex4 t2 with _ | ⟨n, t3⟩ <;> rw [hh] at h <;>
                  dsimp only at h
                · cases h
                · have ht3 : t3.IsSuffix t2 := parseHex4_suffix hh
                  by_cases hsr : 0xD800 ≤ n ∧ n ≤ 0xDBFF
                  · rw [if_pos hsr] at h
                    rcases hsl : surrLook t3 with ⟨n2, t5⟩ | _ | _ <;>
                      rw [hsl] at h <;> dsimp only at h
                    · rcases hb : parseJStringBody f t5 with _ | ⟨s0, rb⟩ <;>
                        rw [hb] at h <;> dsimp only at h
                      · cases h
                      · cases h
                        obtain ⟨p, c2, hpc, hc2⟩ := ihS _ _ _ hb
                        have ht5 : t5.IsSuffix (c :: e :: t2) :=
                          ((surrLook_join_suffix hsl).trans ht3).trans
                            ((List.suffix_cons e t2).trans
                              (List.suffix_cons c (e :: t2)))
                        obtain ⟨p', hp'⟩ := ht5
                        refine ⟨p' ++ p, c2, ?_, hc2⟩
                        rw [← hp', ← hpc]
                        simp [List.append_assoc]
                    · cases h
                    · rcases hb : parseJStringBody f t3 with _ | ⟨s0, rb⟩ <;>
                        rw [hb] at h <;> dsimp only at h
                      · cases h
                      · cases h
                        obtain ⟨p, c2, hpc, hc2⟩ := ihS _ _ _ hb
                        have ht3' : t3.IsSuffix (c :: e :: t2) :=
                          ht3.trans ((List.suffix_cons e t2).trans
                            (List.suffix_cons c (e :: t2)))
                        obtain ⟨p', hp'⟩ := ht3'
                        refine ⟨p' ++ p, c2, ?_, hc2⟩
                        rw [← hp', ← hpc]
                        simp [List.append_assoc]
                  · rw [if_neg hsr] at h
                    rcases hb : parseJStringBody f t3 with _ | ⟨s0, rb⟩ <;>
                      rw [hb] at h <;> dsimp only at h
                    · cases h
                    · cases h
                      obtain ⟨p, c2, hpc, hc2⟩ := ihS _ _ _ hb
                      have ht3' : t3.IsSuffix (c :: e :: t2) :=
                        ht3.trans ((List.suffix_cons e t2).trans
                          (List.suffix_cons c (e :: t2)))
                      obtain ⟨p', hp'⟩ := ht3'
                      refine ⟨p' ++ p, c2, ?_, hc2⟩
                      rw [← hp', ← hpc]
                      simp [List.append_assoc]
              · rw [if_neg he] at h
                rcases hse : simpleEscape e with _ | ch <;> rw [hse] at h <;>
                  dsimp only at h
                · cases h
                · rcases hb : parseJStringBody f t2 with _ | ⟨s0, rb⟩ <;>
                    rw [hb] at h <;> dsimp only at h
                  · cases h
                  · cases h
                    obtain ⟨p, c2, hpc, hc2⟩ := ihS _ _ _ hb
                    exact ⟨c :: e :: p, c2, by rw [← hpc]; rfl, hc2⟩
          · rw [if_neg hbs] at h
            by_cases hctl : c.toNat < 0x20
            · rw [if_pos hctl] at h
              cases h
            · rw [if_neg hctl] at h
              rcases hb : parseJStringBody f t with _ | ⟨s0, rb⟩ <;> rw [hb] at h <;>
                dsimp only at h
              · cases h
              · cases h
                obtain ⟨p, c2, hpc, hc2⟩ := ihS _ _ _ hb
                exact ⟨c :: p, c2, by rw [← hpc]; rfl, hc2⟩

/-- C7: on input that already parses as strict JSON, the flexible parser
succeeds with exactly the strict parse's value — `parse_flexible_json`
strips the text and its first strategy (direct strict parse) already
succeeds, so no repair strategy is ever consulted and none can alter the
result. -/
theorem flexible_igual_estricto (s : Str) (v : JVal) (h : jsonLoads s = some v) :
    parseFlexibleJson s = Except.ok v := by
  simp only [jsonLoads] at h
  rcases hp : parseJValue (2 * (skipWs s).length + 4) (skipWs s) with _ | ⟨v0, r⟩ <;>
    rw [hp] at h <;> dsimp only at h
  · cases h
  · by_cases hrw : skipWs r = []
    · rw [if_pos hrw] at h
      injection h with hv
      have hr_all := all_jws_of_skipWs_nil hrw
      have hsfx : r.IsSuffix (skipWs s) := (parseJ_suffix _).1 _ _ _ hp
      obtain ⟨core, hcore⟩ := hsfx
      have hp2 : parseJValue (2 * (skipWs s).length + 4) (core ++ r) =
          some (v0, [] ++ r) := by
        rw [List.nil_append, hcore]
        exact hp
      have hstrip := (parseJ_strip _).1 r hr_all core v0 [] hp2
        (2 * core.length + 4) (by omega)
      obtain ⟨pl, cl, hpl, hcl⟩ := (parseJ_lastChar _).1 _ _ _ hp
      have hcore_eq : core = pl ++ [cl] := by
        have hboth : (pl ++ [cl]) ++ r = core ++ r := by
          rw [List.append_assoc, List.singleton_append, hpl, hcore]
        exact (List.append_cancel_right hboth).symm
      obtain ⟨c0, t0, hst⟩ : ∃ c0 t0, skipWs s = c0 :: t0 := by
        rcases hss : skipWs s with _ | ⟨c0, t0⟩
        · rw [hss, parseJValue_nil] at hp
          cases hp
        · exact ⟨c0, t0, rfl⟩
      have hc0 : isPyWs c0 = false := value_head_not_pyws (hst ▸ hp)
      have hsplit : s.takeWhile isJsonWs ++ skipWs s = s :=
        List.takeWhile_append_dropWhile isJsonWs s
      have htkpy : ∀ c ∈ s.takeWhile isJsonWs, isPyWs c = true :=
        fun c hc => jws_pyws (List.mem_takeWhile_imp hc)
      have hstep1 : s.dropWhile isPyWs = skipWs s := by
        conv_lhs => rw [← hsplit]
        rw [dropWhile_append_all (skipWs s) htkpy, hst]
        exact dropWhile_cons_false t0 hc0
      have hrrev : ∀ c ∈ r.reverse, isPyWs c = true := fun c hc =>
        jws_pyws (hr_all c (List.mem_reverse.mp hc))
      have hstep2 : (skipWs s).reverse.dropWhile isPyWs = cl :: pl.reverse := by
        rw [← hcore, hcore_eq, List.reverse_append, List.reverse_append,
          dropWhile_append_all _ hrrev, List.reverse_singleton,
          List.singleton_append]
        exact dropWhile_cons_false _ hcl
      have hpystrip : pyStrip s = core := by
        simp only [pyStrip]
        rw [hstep1, hstep2, hcore_eq, List.reverse_cons, List.reverse_reverse]
      have hcorehead : skipWs core = core := by
        rcases hce : core with _ | ⟨cc, tc⟩
        · rfl
        · have hcc : cc = c0 := by
            have h1 : (cc :: tc) ++ r = c0 :: t0 := by
              rw [← hce, hcore, hst]
            rw [List.cons_append] at h1
            injection h1 with hcc _
          subst hcc
          exact dropWhile_cons_false tc (pyws_false_jws hc0)
      have hfloads : jsonLoads core = some v0 := by
        simp only [jsonLoads, hcorehead]
        rw [hstrip]
        simp [skipWs]
      have hfinal : parseFlexibleJson s = Except.ok v0 := by
        simp only [parseFlexibleJson]
        rw [hpystrip, hfloads]
      rw [hfinal, hv]
    · rw [if_neg hrw] at h
      cases h

/-- Witness for C7 at a concrete strict-JSON input. -/
theorem flexible_igual_estricto_witness :
    jsonLoads (("  \x7b\"a\": [true, null]\x7d  ").toList) =
      some (JVal.obj [(("a").toList, JVal.arr [JVal.bool true, JVal.null])]) ∧
    parseFlexibleJson (("  \x7b\"a\": [true, null]\x7d  ").toList) =
      Except.ok (JVal.obj [(("a").toList, JVal.arr [JVal.bool true, JVal.null])]) :=
  ⟨by rfl, flexible_igual_estricto _ _ (by rfl)⟩
